import Mathlib

/-!
# Trellis — Task Lifecycle & Multi-Agent Context Orchestration: verification

Shallow embedding of the core of the Trellis repository (task store,
journal manager, platform context generator, worktree listing) and proofs
of the spec's testable properties against it.

File contents are modelled as `List Char` (the raw bytes of the file);
JSON documents are modelled as an abstract syntax tree (`Json`), with the
textual rendering given by `renderJson` (the `JSON.parse` / `JSON.stringify`
pair of the host language is assumed to round-trip on rendered values).
-/

namespace Trellis

/-! ## Line splitting (JavaScript `s.split("\n")`) -/

/-- Split a list of characters at newline characters, mirroring
JavaScript `s.split("\n")`: the result is always nonempty, and a trailing
newline yields a final empty chunk. -/
def splitNl : List Char → List (List Char)
  | [] => [[]]
  | c :: cs =>
    if c = '\n' then [] :: splitNl cs
    else
      match splitNl cs with
      | [] => [[c]]
      | l :: ls => (c :: l) :: ls

/-- Join lines, terminating each with a newline. -/
def unlines : List (List Char) → List Char
  | [] => []
  | l :: ls => l ++ '\n' :: unlines ls

/-! ## Session header recognition (`/^## Session \d+:/gm`) -/

/-- A line matches the journal session header pattern `^## Session \d+:`
(the prefix `## Session `, one or more ASCII digits, then a colon). The
maximal digit run followed by `:` is equivalent to the regex's
backtracking semantics, since no proper prefix of a digit run is
followed by `:`. -/
def isSessionHeaderLine (l : List Char) : Bool :=
  let p := "## Session ".data
  if l.take p.length = p then
    let rest := l.drop p.length
    let ds := rest.takeWhile (·.isDigit)
    !ds.isEmpty && ((rest.drop ds.length).head? == some ':')
  else false

/-- The decimal digit characters of a natural number, as printed by
string interpolation of a number in the source. -/
def natChars (n : Nat) : List Char := Nat.toDigits 10 n

/-! ## Header and line counting over file contents -/

def countLines (c : List Char) : Nat := (splitNl c).length

def headerCount (c : List Char) : Nat :=
  ((splitNl c).filter isSessionHeaderLine).length

/-- A file content ends with a newline character. -/
def endsNl (c : List Char) : Bool := c.getLast? == some '\n'

/-! ## Journal data model (`src/core/session/journal.ts`, `schemas.ts`) -/

/-- Session entry for the journal (`SessionSchema`). -/
structure Session where
  title : String
  commit : Option String := none
  summary : Option String := none
  content : Option String := none
  timestamp : Option String := none
deriving DecidableEq, Repr

/-- Maximum lines per journal file before rotation (`MAX_JOURNAL_LINES`). -/
def MAX_JOURNAL_LINES : Nat := 2000

/-- A developer's journal workspace: the developer identity (none when the
`.developer` file is missing) and the journal files present in the
workspace directory, identified by their file number (the file named
`journal-<n>.md` is the entry with first component `n`), with raw byte
contents. -/
structure JournalState where
  developer : Option String
  files : List (Nat × List Char)
deriving DecidableEq, Repr

/-- Journal file info returned by `getActiveJournal` (`JournalInfo`); the
path fields are determined by the file number and are omitted. -/
structure JournalInfo where
  fileNumber : Nat
  lineCount : Nat
  sessionCount : Nat
deriving DecidableEq, Repr

/-- Ordering of journal directory entries by file number, as the
comparator `(a, b) => a.number - b.number`. -/
def fileLE (a b : Nat × List Char) : Prop := a.1 ≤ b.1

instance : DecidableRel fileLE := fun a b => Nat.decLe a.1 b.1

instance : IsTotal (Nat × List Char) fileLE := ⟨fun a b => Nat.le_total a.1 b.1⟩

instance : IsTrans (Nat × List Char) fileLE := ⟨fun _ _ _ => Nat.le_trans⟩

/-- `getJournalFiles`: all journal files, sorted by number. -/
def getJournalFiles (st : JournalState) : List (Nat × List Char) :=
  List.insertionSort fileLE st.files

/-- `countSessionsInFile`: occurrences of the `^## Session \d+:` header. -/
def countSessionsInFile (c : List Char) : Nat := headerCount c

/-- `getTotalSessionCount`: total session count across all journal files. -/
def getTotalSessionCount (st : JournalState) : Nat :=
  ((getJournalFiles st).map (fun f => countSessionsInFile f.2)).sum

/-- `getActiveJournal`: info for the highest-numbered journal file, or
`none` when the developer is not initialized or no journal exists. -/
def getActiveJournal (st : JournalState) : Option JournalInfo :=
  match st.developer with
  | none => none
  | some _ =>
    match (getJournalFiles st).getLast? with
    | none => none
    | some latest =>
      some { fileNumber := latest.1
             lineCount := countLines latest.2
             sessionCount := getTotalSessionCount st }

/-- The fixed content written by `createJournalFile`. -/
def templateChars (dev : String) (n : Nat) (today : String) : List Char :=
  "# Journal - ".data ++ dev.data ++ " (Part ".data ++ natChars n ++
    ")\n\n> AI development session journal\n> Started: ".data ++ today.data ++
    "\n\n---\n\n".data

/-- `createJournalFile`: write a fresh journal file numbered `n`
(overwriting any file of that name) and return its number. -/
def createJournalFile (dev : String) (n : Nat) (today : String)
    (st : JournalState) : JournalState × Nat :=
  ({ st with files := st.files.filter (fun f => f.1 != n) ++
      [(n, templateChars dev n today)] }, n)

/-- `rotateJournalIfNeeded`: create file 1 when no journal exists, file
N+1 when the active file's line count has reached `MAX_JOURNAL_LINES`,
otherwise return the active file; throws when the developer identity is
missing. -/
def rotateJournalIfNeeded (today : String) (st : JournalState) :
    Except String (JournalState × Nat) :=
  match st.developer with
  | none => .error "Developer not initialized"
  | some dev =>
    match getActiveJournal st with
    | none => .ok (createJournalFile dev 1 today st)
    | some aj =>
      if MAX_JOURNAL_LINES ≤ aj.lineCount then
        .ok (createJournalFile dev (aj.fileNumber + 1) today st)
      else
        .ok (st, aj.fileNumber)

/-- `generateSessionContent`: the formatted session block. `nowIso` is
the ambient `new Date().toISOString()` used when the session has no
timestamp; `split("T")[0]` is the prefix before the first `T`. -/
def generateSessionContent (sessionNumber : Nat) (s : Session)
    (nowIso : String) : List Char :=
  let timestamp := s.timestamp.getD nowIso
  let date := timestamp.data.takeWhile (· ≠ 'T')
  let c1 := "## Session ".data ++ natChars sessionNumber ++ ": ".data ++
    s.title.data ++ "\n\n**Date**: ".data ++ date ++ "\n".data
  let c2 := match s.commit with
    | some c => c1 ++ "**Commit**: `".data ++ c.data ++ "`\n".data
    | none => c1
  let c3 := c2 ++ "\n".data
  let c4 := match s.summary with
    | some sm => c3 ++ "### Summary\n\n".data ++ sm.data ++ "\n\n".data
    | none => c3
  let c5 := match s.content with
    | some ct => c4 ++ "### Details\n\n".data ++ ct.data ++ "\n\n".data
    | none => c4
  c5 ++ "---\n\n".data

/-- Append content to the journal file numbered `n`
(`fs.appendFileSync`). -/
def appendToFile (n : Nat) (content : List Char) (st : JournalState) :
    JournalState :=
  { st with
    files := st.files.map fun f =>
      if f.1 = n then (f.1, f.2 ++ content) else f }

/-- `addSession`: rotate if needed, number the session by the total
session count across all files plus one, and append the formatted block
to the active file. -/
def addSession (s : Session) (today nowIso : String) (st : JournalState) :
    Except String (JournalState × Nat) :=
  match st.developer with
  | none => .error "Developer not initialized"
  | some _ =>
    match rotateJournalIfNeeded today st with
    | .error e => .error e
    | .ok r =>
      let totalSessions := getTotalSessionCount r.1
      let sessionNumber := totalSessions + 1
      let st2 := appendToFile r.2
        (generateSessionContent sessionNumber s nowIso) r.1
      .ok (st2, sessionNumber)

/-! ### Well-formedness and benignity -/

/-- A string with no embedded newline. -/
def noNl (s : String) : Bool := !s.data.contains '\n'

/-- No line of the string matches the session header pattern. -/
def linesNoHeader (s : String) : Bool :=
  (splitNl s.data).all (fun l => !isSessionHeaderLine l)

/-- A session whose fields cannot inject extra session-header lines into
the journal: single-line title, commit and timestamp, and no
header-shaped line in the summary or detail text. -/
def benignSession (s : Session) : Bool :=
  noNl s.title && s.commit.all noNl && s.timestamp.all noNl &&
    s.summary.all linesNoHeader && s.content.all linesNoHeader

/-- Well-formed journal workspace: file numbers are distinct (they name
distinct files of one directory) and every file content ends with a
newline, as all contents written by the journal code do. -/
def journalWF (st : JournalState) : Prop :=
  (st.files.map Prod.fst).Nodup ∧ ∀ f ∈ st.files, endsNl f.2 = true

instance (st : JournalState) : Decidable (journalWF st) := by
  unfold journalWF; infer_instance

/-- The lines of the journal file template. -/
def templateLines (dev : String) (n : Nat) (today : String) :
    List (List Char) :=
  ["# Journal - ".data ++ dev.data ++ " (Part ".data ++ natChars n ++ ")".data,
   [],
   "> AI development session journal".data,
   "> Started: ".data ++ today.data,
   [],
   "---".data,
   []]

/-- The lines of a formatted session block. -/
def blockLines (sessionNumber : Nat) (s : Session) (nowIso : String) :
    List (List Char) :=
  let timestamp := s.timestamp.getD nowIso
  let date := timestamp.data.takeWhile (· ≠ 'T')
  ["## Session ".data ++ natChars sessionNumber ++ ':' :: ' ' :: s.title.data,
   [],
   "**Date**: ".data ++ date] ++
  (match s.commit with
   | some c => ["**Commit**: `".data ++ c.data ++ "`".data]
   | none => []) ++
  [[]] ++
  (match s.summary with
   | some sm => ["### Summary".data, []] ++ splitNl sm.data ++ [[]]
   | none => []) ++
  (match s.content with
   | some ct => ["### Details".data, []] ++ splitNl ct.data ++ [[]]
   | none => []) ++
  ["---".data, []]

/-! ## JSON documents

JSON values are modelled as an abstract syntax tree; `renderJson` is the
textual image of `JSON.stringify` (object fields in insertion order).
The host `JSON.parse` / `JSON.stringify` pair is assumed to round-trip
on rendered values, so files holding JSON are stored as their parsed
trees. -/

inductive Json where
  | str : String → Json
  | num : Int → Json
  | bool : Bool → Json
  | null : Json
  | arr : List Json → Json
  | obj : List (String × Json) → Json

/-- One character of `JSON.stringify`'s string escaping. -/
def escapeChar (c : Char) : List Char :=
  if c = '"' then ['\\', '"']
  else if c = '\\' then ['\\', '\\']
  else if c = '\n' then ['\\', 'n']
  else if c = '\r' then ['\\', 'r']
  else if c = '\t' then ['\\', 't']
  else if c = '\x08' then ['\\', 'b']
  else if c = '\x0c' then ['\\', 'f']
  else if c.toNat < 32 then
    ['\\', 'u', '0', '0', Nat.digitChar (c.toNat / 16), Nat.digitChar (c.toNat % 16)]
  else [c]

def escapeString (s : String) : String :=
  String.mk (s.data.map escapeChar).join

mutual

def renderJson : Json → String
  | .str s => "\"" ++ escapeString s ++ "\""
  | .num i => toString i
  | .bool b => if b then "true" else "false"
  | .null => "null"
  | .arr xs => "[" ++ String.intercalate "," (renderJsonList xs) ++ "]"
  | .obj fs => "\x7b" ++ String.intercalate "," (renderJsonObj fs) ++ "\x7d"

def renderJsonList : List Json → List String
  | [] => []
  | j :: js => renderJson j :: renderJsonList js

def renderJsonObj : List (String × Json) → List String
  | [] => []
  | (k, v) :: fs =>
    ("\"" ++ escapeString k ++ "\":" ++ renderJson v) :: renderJsonObj fs

end

/-- First value bound to a key in a JSON object. -/
def lookupField (fs : List (String × Json)) (k : String) : Option Json :=
  match fs with
  | [] => none
  | (k', v) :: rest => if k' = k then some v else lookupField rest k

/-! ## Context entries and the platform context generator
(`src/core/platforms/claude/context.ts`, `claude/index.ts`) -/

/-- Development type (`DevTypeSchema`); the generator is only invoked
with a concrete dev type. -/
inductive DevType where
  | backend
  | frontend
  | fullstack
  | test
deriving DecidableEq, Repr

/-- Modelled from the spec: `ContextEntry` is
`\x7bfile: path, type: "file"|"directory" (default file), reason: string\x7d`
(the Zod schema itself lives outside the provided sources). `type` is
optional and absent means `"file"`, as witnessed by
`validateContext`'s `entry.type ?? "file"`. -/
structure ContextEntry where
  file : String
  type : Option String := none
  reason : String
deriving DecidableEq, Repr

/-- JSON image of a context entry, with the key order used by the code
that builds these objects (`file`, then `type` when present, then
`reason`). -/
def ctxToJson (e : ContextEntry) : Json :=
  .obj ([("file", .str e.file)] ++
    (match e.type with
     | some t => [("type", .str t)]
     | none => []) ++
    [("reason", .str e.reason)])

/-- Modelled from the spec: `ContextEntrySchema.safeParse` on a parsed
JSON value — requires string `file` and `reason`, allows an optional
`type` restricted to `"file"` or `"directory"`, ignores unknown keys. -/
def ctxOfJson (j : Json) : Option ContextEntry :=
  match j with
  | .obj fs =>
    match lookupField fs "file", lookupField fs "reason" with
    | some (.str f), some (.str r) =>
      match lookupField fs "type" with
      | none => some { file := f, type := none, reason := r }
      | some (.str t) =>
        if t = "file" ∨ t = "directory" then
          some { file := f, type := some t, reason := r }
        else none
      | some _ => none
    | _, _ => none
  | _ => none

/-- Modelled from the spec: the path constants of `constants/paths.ts`
(pinned by `test/constants/paths.test.ts`): the workflow directory is
`.trellis` and the spec directory is `.trellis/spec`. -/
def PATHS_WORKFLOW : String := ".trellis"

def PATHS_SPEC : String := ".trellis/spec"

/-- `claudeContextGenerator.getImplementBase` -/
def getImplementBase : List ContextEntry :=
  [{ file := PATHS_WORKFLOW ++ "/workflow.md",
     reason := "Project workflow and conventions" },
   { file := PATHS_SPEC ++ "/shared/index.md",
     reason := "Shared coding standards" }]

/-- `claudeContextGenerator.getImplementBackend` -/
def getImplementBackend : List ContextEntry :=
  [{ file := PATHS_SPEC ++ "/backend/index.md",
     reason := "Backend development guide" },
   { file := PATHS_SPEC ++ "/backend/api-module.md",
     reason := "API module conventions" },
   { file := PATHS_SPEC ++ "/backend/quality.md",
     reason := "Code quality requirements" }]

/-- `claudeContextGenerator.getImplementFrontend` -/
def getImplementFrontend : List ContextEntry :=
  [{ file := PATHS_SPEC ++ "/frontend/index.md",
     reason := "Frontend development guide" },
   { file := PATHS_SPEC ++ "/frontend/components.md",
     reason := "Component conventions" }]

/-- `claudeContextGenerator.getCheckContext` -/
def getCheckContext (devType : DevType) : List ContextEntry :=
  let entries : List ContextEntry :=
    [{ file := ".claude/commands/trellis/finish-work.md",
       reason := "Finish work checklist" },
     { file := PATHS_SPEC ++ "/shared/index.md",
       reason := "Shared coding standards" }]
  let entries :=
    if devType = .backend ∨ devType = .fullstack then
      entries ++ [{ file := ".claude/commands/trellis/check-backend.md",
                    reason := "Backend check spec" }]
    else entries
  if devType = .frontend ∨ devType = .fullstack then
    entries ++ [{ file := ".claude/commands/trellis/check-frontend.md",
                  reason := "Frontend check spec" }]
  else entries

/-- `claudeContextGenerator.getDebugContext` -/
def getDebugContext (devType : DevType) : List ContextEntry :=
  let entries : List ContextEntry :=
    [{ file := PATHS_SPEC ++ "/shared/index.md",
       reason := "Shared coding standards" }]
  let entries :=
    if devType = .backend ∨ devType = .fullstack then
      entries ++ [{ file := ".claude/commands/trellis/check-backend.md",
                    reason := "Backend check spec" }]
    else entries
  if devType = .frontend ∨ devType = .fullstack then
    entries ++ [{ file := ".claude/commands/trellis/check-frontend.md",
                  reason := "Frontend check spec" }]
  else entries

/-- The implement-manifest entry list built by
`claudeAdapter.generateContextFiles`'s switch on the dev type. -/
def implementEntries (devType : DevType) : List ContextEntry :=
  let base := getImplementBase
  match devType with
  | .backend => base ++ getImplementBackend
  | .test => base ++ getImplementBackend
  | .frontend => base ++ getImplementFrontend
  | .fullstack => base ++ getImplementBackend ++ getImplementFrontend

/-- The `.jsonl` files of a task directory: file name to the parsed JSON
values of its lines. -/
abbrev CtxFiles : Type := List (String × List Json)

/-- Replace (or create) the file `name` with the given lines
(`fs.writeFileSync`). -/
def setJsonlFile (name : String) (lines : List Json) (fs : CtxFiles) :
    CtxFiles :=
  List.filter (fun f => f.1 != name) fs ++ [(name, lines)]

/-- `writeJsonl`: serialize entries one per line, overwriting the file. -/
def writeJsonl (name : String) (entries : List ContextEntry) (fs : CtxFiles) :
    CtxFiles :=
  setJsonlFile name (entries.map ctxToJson) fs

/-- The bytes `writeJsonl` puts on disk for the given lines:
`entries.map(e => JSON.stringify(e)).join("\n") + "\n"`. -/
def renderJsonlFile (lines : List Json) : String :=
  String.intercalate "\n" (lines.map renderJson) ++ "\n"

/-- Contents of the file `name`, when present. -/
def lookupFile (name : String) : CtxFiles → Option (List Json)
  | [] => none
  | f :: rest => if f.1 = name then some f.2 else lookupFile name rest

/-- `claudeAdapter.generateContextFiles`: write the three phase
manifests for the given dev type. -/
def generateContextFiles (devType : DevType) (fs : CtxFiles) : CtxFiles :=
  let fs1 := writeJsonl "implement.jsonl" (implementEntries devType) fs
  let fs2 := writeJsonl "check.jsonl" (getCheckContext devType) fs1
  writeJsonl "debug.jsonl" (getDebugContext devType) fs2

/-! ## Task records (`src/core/task/crud.ts`; schema modelled from the
spec, since `task/schemas.ts` is outside the provided sources) -/

inductive TaskStatus where
  | planning
  | in_progress
  | review
  | completed
deriving DecidableEq, Repr

def statusToStr : TaskStatus → String
  | .planning => "planning"
  | .in_progress => "in_progress"
  | .review => "review"
  | .completed => "completed"

def statusOfStr (s : String) : Option TaskStatus :=
  if s = "planning" then some .planning
  else if s = "in_progress" then some .in_progress
  else if s = "review" then some .review
  else if s = "completed" then some .completed
  else none

def devTypeToStr : DevType → String
  | .backend => "backend"
  | .frontend => "frontend"
  | .fullstack => "fullstack"
  | .test => "test"

def devTypeOfStr (s : String) : Option DevType :=
  if s = "backend" then some .backend
  else if s = "frontend" then some .frontend
  else if s = "fullstack" then some .fullstack
  else if s = "test" then some .test
  else none

/-- Modelled from the spec: the default phase sequence of a new task
(`DEFAULT_PHASES` lives in `task/schemas.ts`, outside the provided
sources; the spec names the phases implement, check, debug). No claim
depends on its exact value. -/
def DEFAULT_PHASES : List String := ["implement", "check", "debug"]

/-- Modelled from the spec: a schema-valid task record, with the fields
enumerated in the spec's data model and written by `createTask`. -/
structure Task where
  id : String
  name : String
  title : String
  description : String
  status : TaskStatus
  dev_type : Option DevType
  scope : Option String
  priority : String
  creator : String
  assignee : String
  createdAt : String
  completedAt : Option String
  branch : Option String
  base_branch : Option String
  worktree_path : Option String
  current_phase : Int
  next_action : List String
  commit : Option String
  pr_url : Option String
  subtasks : List String
  relatedFiles : List String
  notes : String
deriving DecidableEq, Repr

def optStrJson : Option String → Json
  | some s => .str s
  | none => .null

/-- The JSON object fields of a task record, in the key order used when
the record object is built. -/
def taskFields (t : Task) : List (String × Json) :=
  [("id", .str t.id),
        ("name", .str t.name),
        ("title", .str t.title),
        ("description", .str t.description),
        ("status", .str (statusToStr t.status)),
        ("dev_type", optStrJson (t.dev_type.map devTypeToStr)),
        ("scope", optStrJson t.scope),
        ("priority", .str t.priority),
        ("creator", .str t.creator),
        ("assignee", .str t.assignee),
        ("createdAt", .str t.createdAt),
        ("completedAt", optStrJson t.completedAt),
        ("branch", optStrJson t.branch),
        ("base_branch", optStrJson t.base_branch),
        ("worktree_path", optStrJson t.worktree_path),
        ("current_phase", .num t.current_phase),
        ("next_action", .arr (t.next_action.map .str)),
        ("commit", optStrJson t.commit),
        ("pr_url", optStrJson t.pr_url),
        ("subtasks", .arr (t.subtasks.map .str)),
        ("relatedFiles", .arr (t.relatedFiles.map .str)),
        ("notes", .str t.notes)]

/-- `JSON.stringify` image of a task record. -/
def taskToJson (t : Task) : Json := .obj (taskFields t)

def getStr (fs : List (String × Json)) (k : String) : Option String :=
  match lookupField fs k with
  | some (.str s) => some s
  | _ => none

def getNullableStr (fs : List (String × Json)) (k : String) :
    Option (Option String) :=
  match lookupField fs k with
  | some (.str s) => some (some s)
  | some .null => some none
  | _ => none

def getInt (fs : List (String × Json)) (k : String) : Option Int :=
  match lookupField fs k with
  | some (.num i) => some i
  | _ => none

def strOfJson : Json → Option String
  | .str s => some s
  | _ => none

def getStrList (fs : List (String × Json)) (k : String) :
    Option (List String) :=
  match lookupField fs k with
  | some (.arr xs) =>
    let parsed := xs.map strOfJson
    if parsed.all Option.isSome then some (parsed.filterMap id) else none
  | _ => none

def getStatus (fs : List (String × Json)) (k : String) : Option TaskStatus :=
  (getStr fs k).bind statusOfStr

def getDevTypeOpt (fs : List (String × Json)) (k : String) :
    Option (Option DevType) :=
  match lookupField fs k with
  | some (.str s) => (devTypeOfStr s).map some
  | some .null => some none
  | _ => none

/-- Modelled from the spec: `TaskSchema.safeParse` on a parsed JSON
value — field-typed validation of the task record, stripping unknown
keys and order-insensitive. -/
def taskOfJson (j : Json) : Option Task :=
  match j with
  | .obj fs =>
    match getStr fs "id", getStr fs "name", getStr fs "title",
        getStr fs "description", getStatus fs "status",
        getDevTypeOpt fs "dev_type", getNullableStr fs "scope",
        getStr fs "priority", getStr fs "creator", getStr fs "assignee",
        getStr fs "createdAt" with
    | some id, some name, some title, some description, some status,
        some dev_type, some scope, some priority, some creator,
        some assignee, some createdAt =>
      match getNullableStr fs "completedAt", getNullableStr fs "branch",
          getNullableStr fs "base_branch", getNullableStr fs "worktree_path",
          getInt fs "current_phase", getStrList fs "next_action",
          getNullableStr fs "commit", getNullableStr fs "pr_url",
          getStrList fs "subtasks", getStrList fs "relatedFiles",
          getStr fs "notes" with
      | some completedAt, some branch, some base_branch, some worktree_path,
          some current_phase, some next_action, some commit, some pr_url,
          some subtasks, some relatedFiles, some notes =>
        some { id := id, name := name, title := title,
               description := description, status := status,
               dev_type := dev_type, scope := scope, priority := priority,
               creator := creator, assignee := assignee,
               createdAt := createdAt, completedAt := completedAt,
               branch := branch, base_branch := base_branch,
               worktree_path := worktree_path, current_phase := current_phase,
               next_action := next_action, commit := commit,
               pr_url := pr_url, subtasks := subtasks,
               relatedFiles := relatedFiles, notes := notes }
      | _, _, _, _, _, _, _, _, _, _, _ => none
    | _, _, _, _, _, _, _, _, _, _, _ => none
  | _ => none

/-! ## Task store (`src/core/task/crud.ts` over a directory model) -/

def DIR_ARCHIVE : String := "archive"

def PATHS_TASKS : String := ".trellis/tasks"

/-- One directory under the tasks directory: its name, the parsed
contents of its `task.json` (none when the file is missing or not
JSON), and the names of its other files. -/
structure TaskDirEnt where
  name : String
  taskJson : Option Json
  others : List String

/-- The filesystem state the task CRUD operations touch: the developer
identity, the tasks directory (with existence flag), the archive
buckets, and the current-task pointer. -/
structure TaskStore where
  developer : Option String
  tasksDirExists : Bool
  dirs : List TaskDirEnt
  archive : List (String × TaskDirEnt)
  currentTask : Option String

def lookupDir (name : String) : List TaskDirEnt → Option TaskDirEnt
  | [] => none
  | e :: rest => if e.name = name then some e else lookupDir name rest

/-- `readTask` on a directory entry: parse and schema-validate
`task.json`, returning `none` when missing or invalid. -/
def readTaskEnt (e : TaskDirEnt) : Option Task := e.taskJson.bind taskOfJson

/-- `readTask taskDir`: `none` when the directory or its `task.json` is
missing or fails schema validation. -/
def readTask (dirName : String) (st : TaskStore) : Option Task :=
  match lookupDir dirName st.dirs with
  | none => none
  | some e => readTaskEnt e

/-- `writeTask`: serialize the record into the directory's `task.json`
(the directory must already exist for the write to land). -/
def writeTask (dirName : String) (t : Task) (st : TaskStore) : TaskStore :=
  { st with dirs := st.dirs.map fun e =>
      if e.name = dirName then { e with taskJson := some (taskToJson t) }
      else e }

/-- JavaScript `path.includes(sub)`. -/
def strIncludes (s sub : String) : Bool := decide (List.IsInfix sub.data s.data)

/-- JavaScript `s.endsWith(suffix)`. -/
def strEndsWith (s suffix : String) : Bool :=
  List.isSuffixOf suffix.data s.data

/-- The body of `findTask`'s directory loop. -/
def findTaskInDirs (q : String) : List TaskDirEnt → Option (Task × String)
  | [] => none
  | e :: rest =>
    if e.name = DIR_ARCHIVE then findTaskInDirs q rest
    else
      match readTaskEnt e with
      | none => findTaskInDirs q rest
      | some t =>
        if e.name = q ∨ strEndsWith e.name ("-" ++ q) = true ∨ t.id = q ∨
            t.name = q then
          some (t, e.name)
        else findTaskInDirs q rest

/-- `findTask`: first active task matching the name or slug. -/
def findTask (q : String) (st : TaskStore) : Option (Task × String) :=
  if st.tasksDirExists then findTaskInDirs q st.dirs else none

structure ListTasksOptions where
  mine : Bool := false
  status : Option TaskStatus := none

structure TaskListItem where
  task : Task
  dirName : String
  isCurrent : Bool

/-- `listTasks`: all parseable active tasks, with the `mine` and
`status` filters applied. -/
def listTasks (opts : ListTasksOptions) (st : TaskStore) : List TaskListItem :=
  if st.tasksDirExists then
    st.dirs.filterMap fun e =>
      if e.name = DIR_ARCHIVE then none
      else
        match readTaskEnt e with
        | none => none
        | some t =>
          if opts.mine ∧ st.developer ≠ some t.assignee then none
          else if opts.status.any (fun s => t.status != s) then none
          else
            some { task := t, dirName := e.name,
                   isCurrent := st.currentTask =
                     some (PATHS_TASKS ++ "/" ++ e.name) }
  else []

/-- A `Partial<Task>`: every field optionally updated. -/
structure TaskPatch where
  id : Option String := none
  name : Option String := none
  title : Option String := none
  description : Option String := none
  status : Option TaskStatus := none
  dev_type : Option (Option DevType) := none
  scope : Option (Option String) := none
  priority : Option String := none
  creator : Option String := none
  assignee : Option String := none
  createdAt : Option String := none
  completedAt : Option (Option String) := none
  branch : Option (Option String) := none
  base_branch : Option (Option String) := none
  worktree_path : Option (Option String) := none
  current_phase : Option Int := none
  next_action : Option (List String) := none
  commit : Option (Option String) := none
  pr_url : Option (Option String) := none
  subtasks : Option (List String) := none
  relatedFiles : Option (List String) := none
  notes : Option String := none

/-- The shallow merge `\x7b...task, ...updates\x7d`. -/
def applyPatch (t : Task) (p : TaskPatch) : Task :=
  { id := p.id.getD t.id, name := p.name.getD t.name,
    title := p.title.getD t.title,
    description := p.description.getD t.description,
    status := p.status.getD t.status, dev_type := p.dev_type.getD t.dev_type,
    scope := p.scope.getD t.scope, priority := p.priority.getD t.priority,
    creator := p.creator.getD t.creator,
    assignee := p.assignee.getD t.assignee,
    createdAt := p.createdAt.getD t.createdAt,
    completedAt := p.completedAt.getD t.completedAt,
    branch := p.branch.getD t.branch,
    base_branch := p.base_branch.getD t.base_branch,
    worktree_path := p.worktree_path.getD t.worktree_path,
    current_phase := p.current_phase.getD t.current_phase,
    next_action := p.next_action.getD t.next_action,
    commit := p.commit.getD t.commit, pr_url := p.pr_url.getD t.pr_url,
    subtasks := p.subtasks.getD t.subtasks,
    relatedFiles := p.relatedFiles.getD t.relatedFiles,
    notes := p.notes.getD t.notes }

/-- `updateTask`: shallow merge over the existing record; returns `none`
(and leaves the store unchanged) when the record does not parse. -/
def updateTask (dirName : String) (p : TaskPatch) (st : TaskStore) :
    Option Task × TaskStore :=
  match readTask dirName st with
  | none => (none, st)
  | some t =>
    let updated := applyPatch t p
    (some updated, writeTask dirName updated st)

/-- `archiveTask`: mark the found task completed with a completion
date, clear the current-task pointer when it references the archived
directory, and relocate the directory under the year-month archive
bucket. `today` and `yearMonth` are the ambient date. -/
def archiveTask (q today yearMonth : String) (st : TaskStore) :
    Option String × TaskStore :=
  match findTask q st with
  | none => (none, st)
  | some (_, dirName) =>
    let st1 := (updateTask dirName
      { status := some .completed, completedAt := some (some today) } st).2
    let st2 :=
      match st1.currentTask with
      | some p => if strIncludes p dirName then { st1 with currentTask := none }
                  else st1
      | none => st1
    let movedEnts := st2.dirs.filter (fun e => e.name == dirName)
    let st3 := { st2 with
      dirs := st2.dirs.filter (fun e => e.name != dirName),
      archive := st2.archive ++ movedEnts.map (fun e => (yearMonth, e)) }
    (some (PATHS_TASKS ++ "/" ++ DIR_ARCHIVE ++ "/" ++ yearMonth ++ "/" ++
      dirName), st3)

structure CreateTaskOptions where
  assignee : Option String := none
  slug : Option String := none
  description : Option String := none
  priority : Option String := none

/-- The assignee resolution of `createTask`: an explicit non-empty
`options.assignee` wins (an empty string is falsy in the source
truthiness test), otherwise the developer identity. -/
def resolveAssignee (opts : CreateTaskOptions) (dev : Option String) :
    Option String :=
  match opts.assignee with
  | some a => if a = "" then dev else some a
  | none => dev

/-- The slug resolution `options.slug ?? slugify(title)`. -/
def resolveSlug (slugify : String → String) (title : String)
    (opts : CreateTaskOptions) : String :=
  match opts.slug with
  | some s => s
  | none => slugify title

/-- The fresh task record written by `createTask`. -/
def newTaskRecord (slug title creator assignee today : String)
    (opts : CreateTaskOptions) : Task :=
  { id := slug, name := slug, title := title,
    description := opts.description.getD "", status := .planning,
    dev_type := none, scope := none,
    priority := opts.priority.getD "P2", creator := creator,
    assignee := assignee, createdAt := today, completedAt := none,
    branch := none, base_branch := none, worktree_path := none,
    current_phase := 0, next_action := DEFAULT_PHASES, commit := none,
    pr_url := none, subtasks := [], relatedFiles := [], notes := "" }

/-- `createTask`: resolve the assignee (explicit or developer
identity), derive the slug (`options.slug ?? slugify(title)`), create
the `<datePrefix>-<slug>` directory when absent (only warning on a
collision), and write the fresh task record. `slugify` and
`generateTaskDatePrefix` live in `core/paths.ts`, outside the provided
sources, and are passed in as the ambient slug function and `MM-DD`
prefix (modelled from the spec). -/
def createTask (slugify : String → String) (datePrefix today : String)
    (title : String) (opts : CreateTaskOptions) (st : TaskStore) :
    Except String (String × TaskStore) :=
  match resolveAssignee opts st.developer with
  | none => .error "No developer set"
  | some assignee =>
    let creator := st.developer.getD assignee
    let slug := resolveSlug slugify title opts
    if slug = "" then .error "Could not generate slug from title"
    else
      let st0 := { st with tasksDirExists := true }
      let dirName := datePrefix ++ "-" ++ slug
      let st1 :=
        if (lookupDir dirName st0.dirs).isSome then st0
        else { st0 with dirs := st0.dirs ++
          [{ name := dirName, taskJson := none, others := [] }] }
      let task := newTaskRecord slug title creator assignee today opts
      .ok (PATHS_TASKS ++ "/" ++ dirName, writeTask dirName task st1)

/-! ## Task context management (`src/core/task/context.ts`) -/

/-- `readJsonl`: parse each line against the entry schema, dropping
lines that fail to parse and entries with an empty `file` field. -/
def readJsonl (lines : List Json) : List ContextEntry :=
  (lines.filterMap ctxOfJson).filter (fun e => e.file != "")

/-- What `fs.existsSync` / `fs.statSync(...).isDirectory()` report for a
repository-relative path. -/
inductive PathKind where
  | file
  | dir
deriving DecidableEq, Repr

/-- `fs.appendFileSync` of one JSONL line (creating the file when
absent). -/
def appendJsonLine (name : String) (j : Json) : CtxFiles → CtxFiles
  | [] => [(name, [j])]
  | f :: rest =>
    if f.1 = name then (f.1, f.2 ++ [j]) :: rest
    else f :: appendJsonLine name j rest

/-- `addContext`: normalize the manifest name, require the path to
exist (throwing otherwise), mark directories (appending a trailing
slash), skip with a warning when an entry for the normalized path is
already present, and otherwise append exactly one entry. `fsKind` is
the ambient filesystem. -/
def addContext (fsKind : String → Option PathKind)
    (jsonlName filePath reason : String) (ctx : CtxFiles) :
    Except String CtxFiles :=
  let jsonlFileName :=
    if strEndsWith jsonlName ".jsonl" then jsonlName
    else jsonlName ++ ".jsonl"
  match fsKind filePath with
  | none => .error ("Path not found: " ++ filePath)
  | some k =>
    let entryType : Option String :=
      match k with
      | .dir => some "directory"
      | .file => none
    let path' :=
      match k with
      | .dir => if strEndsWith filePath "/" then filePath else filePath ++ "/"
      | .file => filePath
    let existing := readJsonl ((lookupFile jsonlFileName ctx).getD [])
    if existing.any (fun e => e.file == path') then
      .ok ctx
    else
      .ok (appendJsonLine jsonlFileName
        (ctxToJson { file := path', type := entryType, reason := reason }) ctx)

/-! ## Worktree porcelain parsing (git module `worktree.ts`) -/

/-- A parsed worktree entry. `head` is optional here because the source
casts a partially-filled record: an entry without a `HEAD` line simply
lacks the field. -/
structure Worktree where
  path : String
  head : Option String
  branch : Option String
  isMain : Bool
  isBare : Bool
deriving DecidableEq, Repr

/-- The `Partial<Worktree>` accumulator of the parsing loop; `branch`
distinguishes never-set (outer `none`) from set-to-null by a
`detached` marker (`some none`). -/
structure PartialWorktree where
  path : Option String := none
  head : Option String := none
  branch : Option (Option String) := none
  isMain : Bool := false
  isBare : Bool := false
deriving DecidableEq, Repr

/-- Remove the first occurrence of `pat`, as JavaScript
`s.replace(pat, "")` with a string pattern. -/
def removeFirst (pat : List Char) : List Char → List Char
  | [] => []
  | c :: cs =>
    if pat.isPrefixOf (c :: cs) then (c :: cs).drop pat.length
    else c :: removeFirst pat cs

/-- One line of a porcelain worktree entry. -/
def parseWorktreeLine (w : PartialWorktree) (line : List Char) :
    PartialWorktree :=
  if "worktree ".data.isPrefixOf line then
    { w with path := some (String.mk (line.drop 9)) }
  else if "HEAD ".data.isPrefixOf line then
    { w with head := some (String.mk (line.drop 5)) }
  else if "branch ".data.isPrefixOf line then
    { w with branch := some (some (String.mk
        (removeFirst "refs/heads/".data (line.drop 7)))) }
  else if line = "bare".data then { w with isBare := true }
  else if line = "detached".data then { w with branch := some none }
  else w

def parseWorktreeEntry (lines : List (List Char)) : PartialWorktree :=
  lines.foldl parseWorktreeLine {}

/-- Split a list of characters at occurrences of two consecutive
newlines, mirroring JavaScript `s.split("\n\n")` (leftmost,
non-overlapping). -/
def splitNlNl : List Char → List (List Char)
  | '\n' :: '\n' :: cs => [] :: splitNlNl cs
  | c :: cs =>
    (match splitNlNl cs with
     | [] => [[c]]
     | l :: ls => (c :: l) :: ls)
  | [] => [[]]

/-- Push an entry if it has a path and is not bare (`worktree.path &&
!worktree.isBare`, where an empty path is falsy). -/
def pushWorktree (acc : List Worktree) (entry : List Char) : List Worktree :=
  let w := parseWorktreeEntry (splitNl entry)
  match w.path with
  | some p =>
    if p ≠ "" ∧ w.isBare = false then
      acc ++ [{ path := p, head := w.head, branch := w.branch.getD none,
                isMain := w.isMain, isBare := w.isBare }]
    else acc
  | none => acc

/-- `parseWorktreeOutput`: split the porcelain output into blank-line
separated entries, keep non-bare ones, and mark the first returned
entry as the main worktree. -/
def parseWorktreeOutput (output : String) : List Worktree :=
  let entries := (splitNlNl output.data).filter (fun s => s ≠ [])
  let worktrees := entries.foldl pushWorktree []
  match worktrees with
  | [] => []
  | w :: rest => { w with isMain := true } :: rest

/-- A pre-existing task record used by concrete store instances. -/
def sampleOldTask : Task :=
  { id := "fix", name := "fix", title := "Old fix task",
    description := "old", status := .in_progress, dev_type := none,
    scope := none, priority := "P1", creator := "bob", assignee := "bob",
    createdAt := "2026-01-15", completedAt := none, branch := none,
    base_branch := none, worktree_path := none, current_phase := 1,
    next_action := DEFAULT_PHASES, commit := none, pr_url := none,
    subtasks := [], relatedFiles := [], notes := "old notes" }

/-- A store holding one active task directory named `02-01-fix`. -/
def sampleCollisionStore : TaskStore :=
  TaskStore.mk (some "alice") true
    [TaskDirEnt.mk "02-01-fix" (some (taskToJson sampleOldTask)) ["prd.md"]]
    [] none

/-- A manifest holding one context entry whose `file` field is the raw
path `docs`, without the trailing slash the normalization would add. -/
def sampleCtx : CtxFiles :=
  [("implement.jsonl", [ctxToJson (ContextEntry.mk "docs" none "r")])]

theorem splitNl_ne_nil (cs : List Char) : splitNl cs ≠ [] := by
  induction cs with
  | nil => simp [splitNl]
  | cons c cs ih =>
    simp only [splitNl]
    split
    · simp
    · split
      · simp
      · simp

theorem splitNl_cons_not_nl {c : Char} (h : c ≠ '\n') (cs : List Char) :
    splitNl (c :: cs) =
      (c :: (splitNl cs).headI) :: (splitNl cs).tail := by
  simp only [splitNl, if_neg h]
  cases hs : splitNl cs with
  | nil => exact absurd hs (splitNl_ne_nil cs)
  | cons l ls => simp [List.headI]

theorem splitNl_append_nl (a b : List Char) :
    splitNl (a ++ '\n' :: b) = splitNl a ++ splitNl b := by
  induction a with
  | nil => simp [splitNl]
  | cons c cs ih =>
    by_cases hc : c = '\n'
    · subst hc
      simp [List.cons_append, splitNl, ih]
    · rw [List.cons_append, splitNl_cons_not_nl hc, ih, splitNl_cons_not_nl hc cs]
      cases hs : splitNl cs with
      | nil => exact absurd hs (splitNl_ne_nil cs)
      | cons l ls => simp [List.headI]

theorem splitNl_no_nl {l : List Char} (h : '\n' ∉ l) : splitNl l = [l] := by
  induction l with
  | nil => rfl
  | cons c cs ih =>
    have hc : c ≠ '\n' := fun hh => h (hh ▸ List.mem_cons_self c cs)
    have hcs : '\n' ∉ cs := fun hh => h (List.mem_cons_of_mem c hh)
    rw [splitNl_cons_not_nl hc, ih hcs]
    simp [List.headI]

theorem splitNl_unlines {ls : List (List Char)} (h : ∀ l ∈ ls, '\n' ∉ l) :
    splitNl (unlines ls) = ls ++ [[]] := by
  induction ls with
  | nil => simp [unlines, splitNl]
  | cons l ls ih =>
    rw [unlines, splitNl_append_nl, splitNl_no_nl (h l (List.mem_cons_self l ls)),
      ih (fun x hx => h x (List.mem_cons_of_mem l hx))]
    simp

theorem unlines_splitNl (s : List Char) : unlines (splitNl s) = s ++ ['\n'] := by
  induction s with
  | nil => rfl
  | cons c cs ih =>
    by_cases hc : c = '\n'
    · subst hc; simp [splitNl, unlines, ih]
    · rw [splitNl_cons_not_nl hc]
      cases hs : splitNl cs with
      | nil => exact absurd hs (splitNl_ne_nil cs)
      | cons l ls =>
        rw [hs] at ih
        simp only [List.headI, List.tail, unlines] at ih ⊢
        simp [← ih]

theorem mem_splitNl_no_nl (s : List Char) : ∀ l ∈ splitNl s, '\n' ∉ l := by
  induction s with
  | nil => intro l hl; simp [splitNl] at hl; simp [hl]
  | cons c cs ih =>
    intro l hl
    by_cases hc : c = '\n'
    · subst hc
      simp only [splitNl, if_pos rfl] at hl
      rcases List.mem_cons.mp hl with h | h
      · simp [h]
      · exact ih l h
    · rw [splitNl_cons_not_nl hc] at hl
      rcases List.mem_cons.mp hl with h | h
      · subst h
        intro hmem
        rcases List.mem_cons.mp hmem with h | h
        · exact hc h.symm
        · have : (splitNl cs).headI ∈ splitNl cs := by
            cases hs : splitNl cs with
            | nil => exact absurd hs (splitNl_ne_nil cs)
            | cons x xs => simp [List.headI]
          exact ih _ this h
      · exact ih l (List.mem_of_mem_tail h)

theorem digitChar_isDigit {m : Nat} (h : m < 10) : (Nat.digitChar m).isDigit = true := by
  interval_cases m <;> decide

theorem toDigitsCore_all_digits (fuel : Nat) :
    ∀ (n : Nat) (acc : List Char), (∀ c ∈ acc, c.isDigit = true) →
      ∀ c ∈ Nat.toDigitsCore 10 fuel n acc, c.isDigit = true := by
  induction fuel with
  | zero => intro n acc hacc c hc; exact hacc c hc
  | succ f ih =>
    intro n acc hacc c hc
    simp only [Nat.toDigitsCore] at hc
    split at hc
    · rcases List.mem_cons.mp hc with h | h
      · subst h; exact digitChar_isDigit (Nat.mod_lt _ (by norm_num))
      · exact hacc c h
    · refine ih (n / 10) _ ?_ c hc
      intro d hd
      rcases List.mem_cons.mp hd with h | h
      · subst h; exact digitChar_isDigit (Nat.mod_lt _ (by norm_num))
      · exact hacc d h

theorem toDigitsCore_eq_nil (fuel : Nat) :
    ∀ (n : Nat) (acc : List Char), Nat.toDigitsCore 10 fuel n acc = [] →
      acc = [] ∧ fuel = 0 := by
  induction fuel with
  | zero => intro n acc h; exact ⟨h, rfl⟩
  | succ f ih =>
    intro n acc h
    simp only [Nat.toDigitsCore] at h
    split at h
    · exact absurd h (List.cons_ne_nil _ _)
    · exact absurd (ih _ _ h).1 (List.cons_ne_nil _ _)

theorem natChars_ne_nil (n : Nat) : natChars n ≠ [] := by
  intro h
  exact absurd (toDigitsCore_eq_nil _ _ _ h).2 (Nat.succ_ne_zero n)

theorem natChars_all_digits (n : Nat) : ∀ c ∈ natChars n, c.isDigit = true :=
  toDigitsCore_all_digits _ n [] (by intro c hc; cases hc)

theorem natChars_eq_repr_data (n : Nat) : (Nat.repr n).data = natChars n := rfl

theorem takeWhile_digits_append {a : List Char} (ha : ∀ c ∈ a, c.isDigit = true)
    (rest : List Char) : (a ++ ':' :: rest).takeWhile (·.isDigit) = a := by
  induction a with
  | nil => simp [List.takeWhile]
  | cons c cs ih =>
    have hc := ha c (List.mem_cons_self c cs)
    simp only [List.cons_append, List.takeWhile_cons, hc]
    simp only [decide_True, if_true]
    rw [ih (fun d hd => ha d (List.mem_cons_of_mem c hd))]

theorem isSessionHeaderLine_gen (n : Nat) (rest : List Char) :
    isSessionHeaderLine ("## Session ".data ++ natChars n ++ ':' :: rest) = true := by
  have hp : ("## Session ".data ++ (natChars n ++ ':' :: rest)).take
      ("## Session ".data).length = "## Session ".data := List.take_left _ _
  have hd : ("## Session ".data ++ (natChars n ++ ':' :: rest)).drop
      ("## Session ".data).length = natChars n ++ ':' :: rest := List.drop_left _ _
  simp only [isSessionHeaderLine, List.append_assoc, hp, hd, if_pos rfl]
  rw [takeWhile_digits_append (natChars_all_digits n)]
  simp [natChars_ne_nil n, List.drop_left]

theorem isSessionHeaderLine_false_of_head {l : List Char}
    (h : ∀ xs, l ≠ '#' :: xs) : isSessionHeaderLine l = false := by
  cases l with
  | nil => rfl
  | cons c cs =>
    simp only [isSessionHeaderLine]
    rw [if_neg]
    intro hc
    have : c = '#' := by
      have := congrArg List.head? hc
      simpa using this
    exact h cs (by rw [← this])

theorem endsNl_decomp {a : List Char} (ha : endsNl a = true) :
    a = a.dropLast ++ ['\n'] := by
  have hlast : a.getLast? = some '\n' := by
    simpa [endsNl] using ha
  have hne : a ≠ [] := by
    intro h; subst h; simp at hlast
  have h4 : some (a.getLast hne) = some '\n' := by
    rw [← List.getLast?_eq_getLast a hne]; exact hlast
  conv_lhs => rw [← List.dropLast_append_getLast hne]
  rw [Option.some.inj h4]

theorem headerCount_append {a : List Char} (b : List Char)
    (ha : endsNl a = true) : headerCount (a ++ b) = headerCount a + headerCount b := by
  have h1 : splitNl (a.dropLast ++ '\n' :: b) = splitNl a.dropLast ++ splitNl b :=
    splitNl_append_nl _ _
  have h2 : splitNl (a.dropLast ++ ['\n']) = splitNl a.dropLast ++ splitNl [] :=
    splitNl_append_nl _ []
  conv_lhs => rw [endsNl_decomp ha]
  conv_rhs => rw [endsNl_decomp ha]
  simp only [List.append_assoc, List.singleton_append, headerCount, h1, h2]
  simp [List.filter_append, splitNl, isSessionHeaderLine]

theorem countLines_append {a : List Char} (b : List Char)
    (ha : endsNl a = true) :
    countLines (a ++ b) = countLines a + countLines b - 1 := by
  have h1 : splitNl (a.dropLast ++ '\n' :: b) = splitNl a.dropLast ++ splitNl b :=
    splitNl_append_nl _ _
  have h2 : splitNl (a.dropLast ++ ['\n']) = splitNl a.dropLast ++ splitNl [] :=
    splitNl_append_nl _ []
  conv_lhs => rw [endsNl_decomp ha]
  conv_rhs => rw [endsNl_decomp ha]
  simp only [List.append_assoc, List.singleton_append, countLines, h1, h2]
  simp [splitNl]

theorem endsNl_append {b : List Char} (a : List Char)
    (hb : endsNl b = true) : endsNl (a ++ b) = true := by
  have : b ≠ [] := by
    intro h; subst h; simp [endsNl] at hb
  simp [endsNl, List.getLast?_append_of_ne_nil a this]
  simpa [endsNl] using hb

/-! ### Line decomposition of the written contents -/

theorem unlines_append (xs ys : List (List Char)) :
    unlines (xs ++ ys) = unlines xs ++ unlines ys := by
  induction xs with
  | nil => simp [unlines]
  | cons l ls ih => simp [unlines, ih]

theorem endsNl_unlines {ls : List (List Char)} (h : ls ≠ []) :
    endsNl (unlines ls) = true := by
  induction ls with
  | nil => exact absurd rfl h
  | cons l ls ih =>
    cases ls with
    | nil => simp [unlines, endsNl]
    | cons m ms =>
      have h2 := ih (List.cons_ne_nil m ms)
      rw [unlines, show (l ++ '\n' :: unlines (m :: ms)) =
        l ++ ['\n'] ++ unlines (m :: ms) by simp]
      exact endsNl_append _ h2

theorem isSessionHeaderLine_nil : isSessionHeaderLine [] = false := rfl

theorem headerCount_unlines {ls : List (List Char)}
    (h : ∀ l ∈ ls, '\n' ∉ l) :
    headerCount (unlines ls) = (ls.filter isSessionHeaderLine).length := by
  rw [headerCount, splitNl_unlines h]
  simp [List.filter_append, isSessionHeaderLine_nil]

theorem countLines_unlines {ls : List (List Char)}
    (h : ∀ l ∈ ls, '\n' ∉ l) :
    countLines (unlines ls) = ls.length + 1 := by
  rw [countLines, splitNl_unlines h]
  simp

theorem templateChars_eq_unlines (dev : String) (n : Nat) (today : String) :
    templateChars dev n today = unlines (templateLines dev n today) := by
  have d2 : ")\n\n> AI development session journal\n> Started: ".data
      = ")".data ++ '\n' :: '\n' ::
        ("> AI development session journal".data ++ '\n' :: "> Started: ".data) := by
    decide
  have d3 : "\n\n---\n\n".data = '\n' :: '\n' :: ("---".data ++ ['\n', '\n']) := by
    decide
  rw [templateChars, d2, d3]
  simp [templateLines, unlines, List.append_assoc]

theorem generateSessionContent_eq_unlines (sessionNumber : Nat) (s : Session)
    (nowIso : String) :
    generateSessionContent sessionNumber s nowIso =
      unlines (blockLines sessionNumber s nowIso) := by
  have e1 : ": ".data = ':' :: ' ' :: ([] : List Char) := by decide
  have e2 : "\n\n**Date**: ".data = '\n' :: '\n' :: "**Date**: ".data := by decide
  have e3 : "\n".data = ['\n'] := by decide
  have e4 : "`\n".data = "`".data ++ ['\n'] := by decide
  have e5 : "### Summary\n\n".data
      = "### Summary".data ++ '\n' :: '\n' :: ([] : List Char) := by decide
  have e6 : "\n\n".data = ['\n', '\n'] := by decide
  have e7 : "### Details\n\n".data
      = "### Details".data ++ '\n' :: '\n' :: ([] : List Char) := by decide
  have e8 : "---\n\n".data = "---".data ++ ['\n', '\n'] := by decide
  rcases s with ⟨title, commit, summary, content, timestamp⟩
  rcases commit with _ | c <;> rcases summary with _ | sm <;>
    rcases content with _ | ct <;>
    simp [generateSessionContent, blockLines, e1, e2, e3, e4, e5, e6, e7, e8,
      unlines, unlines_append, unlines_splitNl, List.append_assoc]

/-! ### Counting headers in the written contents -/

theorem isDigit_ne_nl {c : Char} (h : c.isDigit = true) : c ≠ '\n' := by
  intro hc; subst hc; simp [Char.isDigit] at h

theorem not_hash_cons {c : Char} (hc : c ≠ '#') (cs : List Char) :
    ∀ xs, (c :: cs) ≠ '#' :: xs := by
  intro xs h
  exact hc (List.cons.injEq .. ▸ h).1

theorem isSessionHeaderLine_false_of_take {l : List Char}
    (h : l.take ("## Session ".data).length ≠ "## Session ".data) :
    isSessionHeaderLine l = false := by
  simp only [isSessionHeaderLine]
  rw [if_neg h]

theorem nl_not_mem_templateLines {dev today : String} (n : Nat)
    (hdev : noNl dev = true) (htoday : noNl today = true) :
    ∀ l ∈ templateLines dev n today, '\n' ∉ l := by
  have hdev' : '\n' ∉ dev.data := by
    simpa [noNl, List.contains] using hdev
  have htoday' : '\n' ∉ today.data := by
    simpa [noNl, List.contains] using htoday
  have hnat : '\n' ∉ natChars n := by
    intro h; exact isDigit_ne_nl (natChars_all_digits n _ h) rfl
  intro l hl
  simp only [templateLines, List.mem_cons] at hl
  rcases hl with h | h | h | h | h | h | h | h <;> subst_vars <;>
    simp_all <;> intro h <;> rcases h with h | h | h <;>
    first
      | exact hdev' h
      | exact htoday' h
      | exact hnat h
      | revert h <;> decide

theorem headerCount_templateChars {dev today : String} (n : Nat)
    (hdev : noNl dev = true) (htoday : noNl today = true) :
    headerCount (templateChars dev n today) = 0 := by
  rw [templateChars_eq_unlines,
    headerCount_unlines (nl_not_mem_templateLines n hdev htoday)]
  have h1 : isSessionHeaderLine
      ("# Journal - ".data ++ dev.data ++ " (Part ".data ++ natChars n ++
        ")".data) = false := by
    apply isSessionHeaderLine_false_of_take
    rw [show ("# Journal - ".data ++ dev.data ++ " (Part ".data ++ natChars n ++
      ")".data) = "# Journal - ".data ++ (dev.data ++ " (Part ".data ++
      natChars n ++ ")".data) by simp]
    rw [List.take_append_of_le_length (by decide)]
    decide
  have h3 : isSessionHeaderLine "> AI development session journal".data = false := by
    decide
  have h4 : isSessionHeaderLine ("> Started: ".data ++ today.data) = false := by
    have : "> Started: ".data ++ today.data = '>' :: (" Started: ".data ++ today.data) := by
      simp [show "> Started: ".data = '>' :: " Started: ".data from by decide]
    rw [this]
    exact isSessionHeaderLine_false_of_head (not_hash_cons (by decide) _)
  have h6 : isSessionHeaderLine "---".data = false := by decide
  simp only [templateLines, List.filter_cons, List.filter_nil, h1, h3, h4, h6,
    isSessionHeaderLine_nil]
  simp

theorem endsNl_templateChars (dev : String) (n : Nat) (today : String) :
    endsNl (templateChars dev n today) = true := by
  rw [templateChars_eq_unlines]
  exact endsNl_unlines (by simp [templateLines])

theorem nl_not_mem_blockLines {s : Session} {nowIso : String}
    (sessionNumber : Nat) (hb : benignSession s = true)
    (hnow : noNl nowIso = true) :
    ∀ l ∈ blockLines sessionNumber s nowIso, '\n' ∉ l := by
  simp only [benignSession, Bool.and_eq_true] at hb
  obtain ⟨⟨⟨⟨htitle, hcommit⟩, hts⟩, hsm⟩, hct⟩ := hb
  have htitle' : '\n' ∉ s.title.data := by
    simpa [noNl, List.contains] using htitle
  have hnat : '\n' ∉ natChars sessionNumber := by
    intro h; exact isDigit_ne_nl (natChars_all_digits sessionNumber _ h) rfl
  have hdate : '\n' ∉ (s.timestamp.getD nowIso).data.takeWhile (· ≠ 'T') := by
    intro h
    have hmem := (List.takeWhile_sublist (l := (s.timestamp.getD nowIso).data)
      (p := (· ≠ 'T'))).mem h
    cases hts2 : s.timestamp with
    | none =>
      rw [hts2] at hmem
      simp [Option.getD] at hmem
      revert hmem
      simpa [noNl, List.contains] using hnow
    | some t =>
      rw [hts2] at hmem hts
      simp only [Option.all] at hts
      simp [Option.getD] at hmem
      revert hmem
      simpa [noNl, List.contains] using hts
  simp only [blockLines, List.forall_mem_append, List.forall_mem_cons,
    List.forall_mem_nil, List.not_mem_nil, and_true, true_and]
  refine ⟨⟨⟨⟨⟨⟨?_, by simp, ?_, by simp⟩, ?_⟩, by simp, by simp⟩, ?_⟩, ?_⟩,
    by decide, by simp, by simp⟩
  · intro h
    simp only [List.mem_append, List.mem_cons] at h
    rcases h with (h | h) | h | h | h
    · revert h; decide
    · exact hnat h
    · exact absurd h.symm (by decide)
    · exact absurd h.symm (by decide)
    · exact htitle' h
  · intro h
    rcases List.mem_append.mp h with h | h
    · revert h; decide
    · exact hdate h
  · cases hc : s.commit with
    | none => simp
    | some c =>
      rw [hc] at hcommit
      simp only [Option.all] at hcommit
      rw [List.forall_mem_cons]
      refine ⟨?_, by simp⟩
      intro h
      simp only [List.mem_append, List.mem_cons] at h
      rcases h with (h | h) | h | h
      · revert h; decide
      · revert h
        simpa [noNl, List.contains] using hcommit
      · exact absurd h.symm (by decide)
      · simp at h
  · cases hs : s.summary with
    | none => simp
    | some sm =>
      simp only [List.forall_mem_append]
      refine ⟨⟨?_, mem_splitNl_no_nl sm.data⟩, ?_⟩ <;> decide
  · cases hc : s.content with
    | none => simp
    | some ct =>
      simp only [List.forall_mem_append]
      refine ⟨⟨?_, mem_splitNl_no_nl ct.data⟩, ?_⟩ <;> decide

theorem filter_header_eq_nil {s : String} (h : linesNoHeader s = true) :
    (splitNl s.data).filter isSessionHeaderLine = [] := by
  rw [List.filter_eq_nil]
  intro a ha
  simp only [linesNoHeader, List.all_eq_true] at h
  simpa using h a ha

theorem headerCount_block {s : Session} {nowIso : String} (n : Nat)
    (hb : benignSession s = true) (hnow : noNl nowIso = true) :
    headerCount (generateSessionContent n s nowIso) = 1 := by
  have hlines := nl_not_mem_blockLines n hb hnow
  rw [generateSessionContent_eq_unlines, headerCount_unlines hlines]
  simp only [benignSession, Bool.and_eq_true] at hb
  obtain ⟨⟨⟨⟨htitle, hcommit⟩, hts⟩, hsm⟩, hct⟩ := hb
  have hhdr : isSessionHeaderLine
      ("## Session ".data ++ natChars n ++ ':' :: ' ' :: s.title.data) = true :=
    isSessionHeaderLine_gen n _
  have hdl : isSessionHeaderLine ("**Date**: ".data ++
      (s.timestamp.getD nowIso).data.takeWhile (· ≠ 'T')) = false := by
    rw [show "**Date**: ".data = '*' :: "*Date**: ".data from by decide,
      List.cons_append]
    exact isSessionHeaderLine_false_of_head (not_hash_cons (by decide) _)
  have hcl : ∀ c : String, isSessionHeaderLine
      ("**Commit**: `".data ++ c.data ++ "`".data) = false := by
    intro c
    rw [show "**Commit**: `".data = '*' :: "*Commit**: `".data from by decide,
      List.cons_append]
    exact isSessionHeaderLine_false_of_head (not_hash_cons (by decide) _)
  have hfcm : (List.filter isSessionHeaderLine
      (match s.commit with
       | some c => ["**Commit**: `".data ++ c.data ++ "`".data]
       | none => [])) = [] := by
    cases hc : s.commit with
    | none => simp
    | some c =>
      simp only [List.filter_cons, List.filter_nil]
      rw [hcl c]
      simp
  have hfs : (List.filter isSessionHeaderLine
      (match s.summary with
       | some sm => ["### Summary".data, []] ++ splitNl sm.data ++ [[]]
       | none => [])) = [] := by
    cases hs : s.summary with
    | none => simp
    | some sm =>
      rw [hs] at hsm
      simp only [Option.all] at hsm
      simp [List.filter_append, List.filter_cons, filter_header_eq_nil hsm,
        isSessionHeaderLine_nil, show isSessionHeaderLine "### Summary".data
          = false from by decide]
  have hfc : (List.filter isSessionHeaderLine
      (match s.content with
       | some ct => ["### Details".data, []] ++ splitNl ct.data ++ [[]]
       | none => [])) = [] := by
    cases hc : s.content with
    | none => simp
    | some ct =>
      rw [hc] at hct
      simp only [Option.all] at hct
      simp [List.filter_append, List.filter_cons, filter_header_eq_nil hct,
        isSessionHeaderLine_nil, show isSessionHeaderLine "### Details".data
          = false from by decide]
  simp only [blockLines, List.filter_append, List.filter_cons, hhdr, hdl,
    hfcm, hfs, hfc, isSessionHeaderLine_nil,
    show isSessionHeaderLine "---".data = false from by decide]
  simp

theorem endsNl_block (n : Nat) (s : Session) (nowIso : String) :
    endsNl (generateSessionContent n s nowIso) = true := by
  rw [generateSessionContent_eq_unlines]
  apply endsNl_unlines
  simp [blockLines]

/-! ### Journal state lemmas -/


theorem getJournalFiles_perm (st : JournalState) :
    List.Perm (getJournalFiles st) st.files :=
  List.perm_insertionSort fileLE st.files

theorem getTotalSessionCount_eq_sum (st : JournalState) :
    getTotalSessionCount st =
      (st.files.map (fun f => countSessionsInFile f.2)).sum := by
  unfold getTotalSessionCount
  exact ((getJournalFiles_perm st).map _).sum_eq

theorem sorted_le_getLast {l : List (Nat × List Char)}
    (hs : l.Sorted fileLE) {a : Nat × List Char} (ha : l.getLast? = some a) :
    ∀ x ∈ l, x.1 ≤ a.1 := by
  induction l with
  | nil => simp at ha
  | cons b t ih =>
    rw [List.sorted_cons] at hs
    obtain ⟨hb, ht⟩ := hs
    intro x hx
    cases t with
    | nil =>
      simp at ha hx
      subst ha; subst hx; exact Nat.le_refl _
    | cons c u =>
      rw [List.getLast?_cons_cons] at ha
      rcases List.mem_cons.mp hx with h | h
      · subst h
        exact hb a (List.mem_of_getLast?_eq_some ha)
      · exact ih ht ha x h

theorem active_max {st : JournalState} {aj : JournalInfo}
    (h : getActiveJournal st = some aj) :
    ∀ x ∈ st.files, x.1 ≤ aj.fileNumber := by
  unfold getActiveJournal at h
  cases hd : st.developer with
  | none => rw [hd] at h; simp at h
  | some dev =>
    rw [hd] at h
    simp only at h
    cases hl : (getJournalFiles st).getLast? with
    | none => rw [hl] at h; simp at h
    | some latest =>
      rw [hl] at h
      simp only [Option.some.injEq] at h
      intro x hx
      have hx' : x ∈ getJournalFiles st := (getJournalFiles_perm st).symm.subset hx
      have := sorted_le_getLast
        (List.sorted_insertionSort fileLE st.files) hl x hx'
      rw [← h]
      exact this

theorem filter_ne_key {l : List (Nat × List Char)} {n : Nat}
    (h : n ∉ l.map Prod.fst) : l.filter (fun f => f.1 != n) = l := by
  induction l with
  | nil => rfl
  | cons f t ih =>
    simp only [List.map_cons, List.mem_cons] at h
    push_neg at h
    rw [List.filter_cons, if_pos (by simpa using Ne.symm h.1), ih h.2]

theorem keys_appendToFile (n : Nat) (b : List Char) (st : JournalState) :
    (appendToFile n b st).files.map Prod.fst = st.files.map Prod.fst := by
  simp only [appendToFile, List.map_map]
  apply List.map_congr_left
  intro f _
  by_cases h : f.1 = n <;> simp [h]

theorem journalWF_appendToFile {st : JournalState} {n : Nat} {b : List Char}
    (hwf : journalWF st) (hb : endsNl b = true) :
    journalWF (appendToFile n b st) := by
  constructor
  · rw [keys_appendToFile]; exact hwf.1
  · intro f hf
    simp only [appendToFile, List.mem_map] at hf
    obtain ⟨g, hg, hgf⟩ := hf
    by_cases h : g.1 = n
    · rw [if_pos h] at hgf
      rw [← hgf]
      exact endsNl_append _ hb
    · rw [if_neg h] at hgf
      rw [← hgf]
      exact hwf.2 g hg

theorem sum_update_key {b : List Char} :
    ∀ (l : List (Nat × List Char)), (l.map Prod.fst).Nodup →
      (∀ f ∈ l, endsNl f.2 = true) → ∀ {n : Nat}, n ∈ l.map Prod.fst →
      ((l.map (fun g => if g.1 = n then (g.1, g.2 ++ b) else g)).map
        (fun f => countSessionsInFile f.2)).sum =
      (l.map (fun f => countSessionsInFile f.2)).sum + headerCount b := by
  intro l
  induction l with
  | nil => intro _ _ n hmem; simp at hmem
  | cons f t ih =>
    intro hnodup hends n hmem
    simp only [List.map_cons, List.mem_cons] at hmem
    rw [List.map_cons, List.nodup_cons] at hnodup
    by_cases h : f.1 = n
    · have ht : t.map (fun g => if g.1 = n then (g.1, g.2 ++ b) else g) = t := by
        conv_rhs => rw [← List.map_id t]
        apply List.map_congr_left
        intro g hg
        simp only [id]
        rw [if_neg]
        intro hc
        exact hnodup.1 (h ▸ hc ▸ List.mem_map_of_mem Prod.fst hg)
      simp only [List.map_cons, if_pos h, ht, List.sum_cons,
        countSessionsInFile]
      rw [headerCount_append b (hends f (List.mem_cons_self f t))]
      ring
    · rcases hmem with hm | hm
      · exact absurd hm.symm h
      · simp only [List.map_cons, if_neg h, List.sum_cons]
        rw [ih hnodup.2 (fun g hg => hends g (List.mem_cons_of_mem f hg)) hm]
        ring

theorem sum_appendToFile {st : JournalState} {n : Nat} (b : List Char)
    (hwf : journalWF st) (hmem : n ∈ st.files.map Prod.fst) :
    getTotalSessionCount (appendToFile n b st) =
      getTotalSessionCount st + headerCount b := by
  rw [getTotalSessionCount_eq_sum, getTotalSessionCount_eq_sum]
  exact sum_update_key st.files hwf.1 hwf.2 hmem

theorem getJournalFiles_eq_nil_iff (st : JournalState) :
    getJournalFiles st = [] ↔ st.files = [] := by
  constructor
  · intro h
    have hp := getJournalFiles_perm st
    rw [h] at hp
    exact hp.symm.eq_nil
  · intro h
    have hp := getJournalFiles_perm st
    rw [h] at hp
    exact hp.eq_nil

/-- Everything `addSession` needs to know about a successful rotation:
the state stays well-formed, the total session count is unchanged (the
template contains no session header), the active file number is a key of
the resulting files list, and the developer identity is unchanged. -/
theorem rotate_spec {st : JournalState} {today : String}
    (hwf : journalWF st)
    (hdev : ∀ d, st.developer = some d → noNl d = true)
    (htoday : noNl today = true) :
    ∀ st1 n, rotateJournalIfNeeded today st = .ok (st1, n) →
      journalWF st1 ∧ getTotalSessionCount st1 = getTotalSessionCount st ∧
        n ∈ st1.files.map Prod.fst ∧ st1.developer = st.developer := by
  intro st1 n h
  unfold rotateJournalIfNeeded at h
  split at h
  · exact absurd h (by simp)
  rename_i dev hd
  split at h
  · -- no journal exists: create file 1
    rename_i ha
    simp only [Except.ok.injEq, createJournalFile, Prod.mk.injEq] at h
    obtain ⟨h1, h2⟩ := h
    have hdev' : noNl dev = true := hdev dev hd
    have hfiles : st.files = [] := by
      unfold getActiveJournal at ha
      rw [hd] at ha
      simp only at ha
      cases hl : (getJournalFiles st).getLast? with
      | none =>
        rw [← getJournalFiles_eq_nil_iff]
        exact List.getLast?_eq_none_iff.mp hl
      | some latest => rw [hl] at ha; simp at ha
    subst h1
    refine ⟨⟨?_, ?_⟩, ?_, ?_, rfl⟩
    · simp [hfiles]
    · intro f hf
      simp only [hfiles, List.filter_nil, List.nil_append,
        List.mem_singleton] at hf
      subst hf
      exact endsNl_templateChars dev 1 today
    · rw [getTotalSessionCount_eq_sum, getTotalSessionCount_eq_sum]
      simp [hfiles, countSessionsInFile,
        headerCount_templateChars 1 hdev' htoday]
    · subst h2
      simp [hfiles]
  · rename_i aj ha
    have hdev' : noNl dev = true := hdev dev hd
    have hmax := active_max ha
    split at h
    · -- threshold reached: create file N+1
      rename_i hline
      simp only [Except.ok.injEq, createJournalFile, Prod.mk.injEq] at h
      obtain ⟨h1, h2⟩ := h
      have hfresh : aj.fileNumber + 1 ∉ st.files.map Prod.fst := by
        intro hmem
        obtain ⟨x, hx, hx1⟩ := List.mem_map.mp hmem
        have := hmax x hx
        omega
      have hfilter := filter_ne_key hfresh
      subst h1
      refine ⟨⟨?_, ?_⟩, ?_, ?_, rfl⟩
      · simp only [List.map_append, hfilter]
        rw [List.nodup_append]
        refine ⟨hwf.1, by simp, ?_⟩
        intro x hx
        simp only [List.map_cons, List.map_nil, List.mem_singleton]
        intro hc
        subst hc
        exact hfresh hx
      · intro f hf
        simp only [hfilter, List.mem_append, List.mem_singleton] at hf
        rcases hf with hf | hf
        · exact hwf.2 f hf
        · subst hf
          exact endsNl_templateChars dev _ today
      · rw [getTotalSessionCount_eq_sum, getTotalSessionCount_eq_sum]
        simp [hfilter, countSessionsInFile,
          headerCount_templateChars _ hdev' htoday]
      · subst h2
        simp [hfilter]
    · -- below threshold: active file unchanged
      rename_i hline
      simp only [Except.ok.injEq, Prod.mk.injEq] at h
      obtain ⟨h1, h2⟩ := h
      subst h1
      refine ⟨hwf, rfl, ?_, rfl⟩
      subst h2
      unfold getActiveJournal at ha
      rw [hd] at ha
      simp only at ha
      cases hl : (getJournalFiles st).getLast? with
      | none => rw [hl] at ha; simp at ha
      | some latest =>
        rw [hl] at ha
        simp only [Option.some.injEq] at ha
        have hmem : latest ∈ getJournalFiles st :=
          List.mem_of_getLast?_eq_some hl
        have hmem' : latest ∈ st.files := (getJournalFiles_perm st).subset hmem
        rw [← ha]
        exact List.mem_map_of_mem Prod.fst hmem'

/-- Specification of a successful `addSession`: the returned number is
the previous total plus one, the new total is exactly one more, the
state stays well-formed and the developer is unchanged. -/
theorem addSession_spec {st : JournalState} {s : Session} {today nowIso : String}
    (hwf : journalWF st) (hdev : ∀ d, st.developer = some d → noNl d = true)
    (htoday : noNl today = true) (hnow : noNl nowIso = true)
    (hb : benignSession s = true) :
    ∀ st1 n1, addSession s today nowIso st = .ok (st1, n1) →
      n1 = getTotalSessionCount st + 1 ∧
      getTotalSessionCount st1 = getTotalSessionCount st + 1 ∧
      journalWF st1 ∧ st1.developer = st.developer := by
  intro st1 n1 h
  unfold addSession at h
  split at h
  · exact absurd h (by simp)
  rename_i dev hd
  split at h
  · exact absurd h (by simp)
  rename_i r hrot
  obtain ⟨hwf1, htot1, hmem1, hdev1⟩ :=
    rotate_spec hwf hdev htoday r.1 r.2 (by rw [hrot])
  simp only [Except.ok.injEq, Prod.mk.injEq] at h
  obtain ⟨hst1, hn1⟩ := h
  have hsum : getTotalSessionCount st1 = getTotalSessionCount r.1 + 1 := by
    rw [← hst1, sum_appendToFile _ hwf1 hmem1, headerCount_block _ hb hnow]
  refine ⟨?_, ?_, ?_, ?_⟩
  · omega
  · omega
  · rw [← hst1]
    exact journalWF_appendToFile hwf1 (endsNl_block _ s nowIso)
  · rw [← hst1]
    simpa [appendToFile] using hdev1

/-- When the active file has reached the threshold, `addSession` writes
its block into the freshly created file N+1 and leaves all previous
files untouched. -/
theorem addSession_rotation_boundary {st : JournalState} {s : Session}
    {today nowIso : String} {d : String} {aj : JournalInfo}
    (hd : st.developer = some d) (ha : getActiveJournal st = some aj)
    (hline : MAX_JOURNAL_LINES ≤ aj.lineCount) :
    ∀ st1 n1, addSession s today nowIso st = .ok (st1, n1) →
      st1.files = st.files ++
        [(aj.fileNumber + 1,
          templateChars d (aj.fileNumber + 1) today ++
            generateSessionContent n1 s nowIso)] := by
  intro st1 n1 h
  have hmax := active_max ha
  have hfresh : aj.fileNumber + 1 ∉ st.files.map Prod.fst := by
    intro hmem
    obtain ⟨x, hx, hx1⟩ := List.mem_map.mp hmem
    have := hmax x hx
    omega
  have hrot : rotateJournalIfNeeded today st =
      .ok (createJournalFile d (aj.fileNumber + 1) today st) := by
    unfold rotateJournalIfNeeded
    rw [hd]
    simp only [ha]
    rw [if_pos hline]
  unfold addSession at h
  rw [hd] at h
  simp only [hrot] at h
  simp only [Except.ok.injEq, Prod.mk.injEq, createJournalFile] at h
  obtain ⟨hst1, hn1⟩ := h
  rw [← hn1, ← hst1]
  simp only [appendToFile, createJournalFile, filter_ne_key hfresh,
    List.map_append]
  congr 1
  · conv_rhs => rw [← List.map_id st.files]
    apply List.map_congr_left
    intro f hf
    simp only [id]
    rw [if_neg]
    intro hc
    have := hmax f hf
    omega
  · simp [filter_ne_key hfresh]

/-- C1: Journal global session numbering. For every well-formed developer
journal state, sessions added by consecutive `addSession` calls receive
strictly increasing numbers with no duplicate or skipped number
(`n2 = n1 + 1`), even across a rotation boundary; when the active journal
file N has reached 2000 lines, the next `addSession` call writes its
session block into file N+1 (leaving every earlier file byte-identical);
and `rotateJournalIfNeeded` creates file 1 when no journal exists, file
N+1 when the line count has reached the threshold, and otherwise leaves
the active file (and the whole state) unchanged. -/
theorem C1_addSession_numbering_rotation
    (st : JournalState) (s1 s2 : Session) (today nowIso today2 nowIso2 : String)
    (hwf : journalWF st)
    (hdev : ∀ d, st.developer = some d → noNl d = true)
    (htoday : noNl today = true) (htoday2 : noNl today2 = true)
    (hnow : noNl nowIso = true) (hnow2 : noNl nowIso2 = true)
    (hb1 : benignSession s1 = true) (hb2 : benignSession s2 = true) :
    (∀ d, st.developer = some d → st.files = [] →
      rotateJournalIfNeeded today st = .ok (createJournalFile d 1 today st)) ∧
    (∀ d aj, st.developer = some d → getActiveJournal st = some aj →
      MAX_JOURNAL_LINES ≤ aj.lineCount →
      rotateJournalIfNeeded today st =
        .ok (createJournalFile d (aj.fileNumber + 1) today st)) ∧
    (∀ aj, getActiveJournal st = some aj → aj.lineCount < MAX_JOURNAL_LINES →
      rotateJournalIfNeeded today st = .ok (st, aj.fileNumber)) ∧
    (∀ st1 n1 st2 n2,
      addSession s1 today nowIso st = .ok (st1, n1) →
      addSession s2 today2 nowIso2 st1 = .ok (st2, n2) →
      n2 = n1 + 1) ∧
    (∀ d aj st1 n1, st.developer = some d → getActiveJournal st = some aj →
      MAX_JOURNAL_LINES ≤ aj.lineCount →
      addSession s1 today nowIso st = .ok (st1, n1) →
      st1.files = st.files ++
        [(aj.fileNumber + 1,
          templateChars d (aj.fileNumber + 1) today ++
            generateSessionContent n1 s1 nowIso)]) := by
  refine ⟨?_, ?_, ?_, ?_, ?_⟩
  · intro d hd hfiles
    have ha : getActiveJournal st = none := by
      unfold getActiveJournal
      rw [hd]
      simp only
      have : getJournalFiles st = [] := (getJournalFiles_eq_nil_iff st).mpr hfiles
      rw [this]
      rfl
    unfold rotateJournalIfNeeded
    rw [hd]
    simp only [ha]
  · intro d aj hd ha hline
    unfold rotateJournalIfNeeded
    rw [hd]
    simp only [ha]
    rw [if_pos hline]
  · intro aj ha hline
    unfold rotateJournalIfNeeded
    cases hd : st.developer with
    | none =>
      unfold getActiveJournal at ha
      rw [hd] at ha
      simp at ha
    | some d =>
      simp only [ha]
      rw [if_neg (by omega)]
  · intro st1 n1 st2 n2 h1 h2
    obtain ⟨hn1, htot1, hwf1, hdev1⟩ :=
      addSession_spec hwf hdev htoday hnow hb1 st1 n1 h1
    have hdev' : ∀ d, st1.developer = some d → noNl d = true := by
      intro d hd
      exact hdev d (hdev1 ▸ hd)
    obtain ⟨hn2, _, _, _⟩ :=
      addSession_spec hwf1 hdev' htoday2 hnow2 hb2 st2 n2 h2
    omega
  · intro d aj st1 n1 hd ha hline h
    exact addSession_rotation_boundary hd ha hline st1 n1 h

theorem C1_addSession_numbering_rotation_witness :
    journalWF (JournalState.mk (some "alice")
        [(1, templateChars "alice" 1 "2026-01-01")]) ∧
    benignSession (Session.mk "Fix login bug" none none none
        (some "2026-02-01T10:00:00.000Z")) = true ∧
    (∀ st1 n1 st2 n2,
      addSession (Session.mk "Fix login bug" none none none
          (some "2026-02-01T10:00:00.000Z")) "2026-02-01"
          "2026-02-01T10:00:00.000Z"
          (JournalState.mk (some "alice")
            [(1, templateChars "alice" 1 "2026-01-01")])
        = .ok (st1, n1) →
      addSession (Session.mk "Second session" none none none
          (some "2026-02-01T11:00:00.000Z")) "2026-02-01"
          "2026-02-01T11:00:00.000Z" st1
        = .ok (st2, n2) →
      n2 = n1 + 1) :=
  ⟨by decide, by decide,
    (C1_addSession_numbering_rotation
      (JournalState.mk (some "alice")
        [(1, templateChars "alice" 1 "2026-01-01")])
      (Session.mk "Fix login bug" none none none
        (some "2026-02-01T10:00:00.000Z"))
      (Session.mk "Second session" none none none
        (some "2026-02-01T11:00:00.000Z"))
      "2026-02-01" "2026-02-01T10:00:00.000Z"
      "2026-02-01" "2026-02-01T11:00:00.000Z"
      (by decide)
      (fun d hd => by injection hd with h; subst h; decide)
      (by decide) (by decide) (by decide) (by decide)
      (by decide) (by decide)).2.2.2.1⟩

theorem ctxOfJson_ctxToJson {e : ContextEntry}
    (h : e.type = none ∨ e.type = some "file" ∨ e.type = some "directory") :
    ctxOfJson (ctxToJson e) = some e := by
  rcases e with ⟨f, ty, r⟩
  rcases h with h | h | h <;> simp only at h <;> subst h <;>
    simp [ctxToJson, ctxOfJson, lookupField]

theorem lookupFile_set_self (name : String) (lines : List Json)
    (fs : CtxFiles) : lookupFile name (setJsonlFile name lines fs) = some lines := by
  unfold setJsonlFile
  induction fs with
  | nil => simp [lookupFile]
  | cons f rest ih =>
    rw [List.filter_cons]
    by_cases h : f.1 = name
    · rw [if_neg (by simp [h])]
      exact ih
    · rw [if_pos (by simp [h]), List.cons_append]
      simp only [lookupFile]
      rw [if_neg h]
      exact ih

theorem lookupFile_set_other {name other : String} (h : other ≠ name)
    (lines : List Json) (fs : CtxFiles) :
    lookupFile name (setJsonlFile other lines fs) = lookupFile name fs := by
  unfold setJsonlFile
  induction fs with
  | nil => simp [lookupFile, if_neg h]
  | cons f rest ih =>
    rw [List.filter_cons]
    by_cases hf : f.1 = other
    · rw [if_neg (by simp [hf])]
      rw [ih]
      simp only [lookupFile]
      rw [if_neg (by rw [hf]; exact fun hh => h hh)]
    · rw [if_pos (by simp [hf]), List.cons_append]
      simp only [lookupFile]
      by_cases he : f.1 = name
      · rw [if_pos he, if_pos he]
      · rw [if_neg he, if_neg he]
        exact ih

theorem lookupFile_gen_implement (d : DevType) (fs : CtxFiles) :
    lookupFile "implement.jsonl" (generateContextFiles d fs) =
      some ((implementEntries d).map ctxToJson) := by
  unfold generateContextFiles writeJsonl
  rw [lookupFile_set_other (by decide), lookupFile_set_other (by decide),
    lookupFile_set_self]

theorem lookupFile_gen_check (d : DevType) (fs : CtxFiles) :
    lookupFile "check.jsonl" (generateContextFiles d fs) =
      some ((getCheckContext d).map ctxToJson) := by
  unfold generateContextFiles writeJsonl
  rw [lookupFile_set_other (by decide), lookupFile_set_self]

theorem lookupFile_gen_debug (d : DevType) (fs : CtxFiles) :
    lookupFile "debug.jsonl" (generateContextFiles d fs) =
      some ((getDebugContext d).map ctxToJson) := by
  unfold generateContextFiles writeJsonl
  rw [lookupFile_set_self]

/-- C3: `generateContextFiles` is idempotent. Each of the three manifest
files it writes is a pure function of the dev type alone — in
particular, calling it twice with identical `(platform, devType)` inputs
produces byte-identical `implement.jsonl`, `check.jsonl`, and
`debug.jsonl` contents (the rendered bytes agree for any two prior
states, including the state produced by the first call), with prior
content fully overwritten rather than merged. -/
theorem C3_generateContextFiles_idempotent (d : DevType) (fs fs' : CtxFiles) :
    (lookupFile "implement.jsonl" (generateContextFiles d fs) =
      some ((implementEntries d).map ctxToJson)) ∧
    (lookupFile "check.jsonl" (generateContextFiles d fs) =
      some ((getCheckContext d).map ctxToJson)) ∧
    (lookupFile "debug.jsonl" (generateContextFiles d fs) =
      some ((getDebugContext d).map ctxToJson)) ∧
    ((lookupFile "implement.jsonl" (generateContextFiles d fs)).map
        renderJsonlFile =
      (lookupFile "implement.jsonl" (generateContextFiles d fs')).map
        renderJsonlFile) ∧
    ((lookupFile "check.jsonl" (generateContextFiles d fs)).map
        renderJsonlFile =
      (lookupFile "check.jsonl" (generateContextFiles d fs')).map
        renderJsonlFile) ∧
    ((lookupFile "debug.jsonl" (generateContextFiles d fs)).map
        renderJsonlFile =
      (lookupFile "debug.jsonl" (generateContextFiles d fs')).map
        renderJsonlFile) :=
  ⟨lookupFile_gen_implement d fs, lookupFile_gen_check d fs,
    lookupFile_gen_debug d fs,
    by rw [lookupFile_gen_implement d fs, lookupFile_gen_implement d fs'],
    by rw [lookupFile_gen_check d fs, lookupFile_gen_check d fs'],
    by rw [lookupFile_gen_debug d fs, lookupFile_gen_debug d fs']⟩

/-- C4: implement-manifest composition rule. The generated implement
manifest equals the base entries, followed by the backend entries
exactly when the dev type is backend or test, by the frontend entries
when it is frontend, and by both (backend first) when it is
fullstack. -/
theorem C4_implement_composition (fs : CtxFiles) :
    lookupFile "implement.jsonl" (generateContextFiles .backend fs) =
      some ((getImplementBase ++ getImplementBackend).map ctxToJson) ∧
    lookupFile "implement.jsonl" (generateContextFiles .test fs) =
      some ((getImplementBase ++ getImplementBackend).map ctxToJson) ∧
    lookupFile "implement.jsonl" (generateContextFiles .frontend fs) =
      some ((getImplementBase ++ getImplementFrontend).map ctxToJson) ∧
    lookupFile "implement.jsonl" (generateContextFiles .fullstack fs) =
      some ((getImplementBase ++ getImplementBackend ++
        getImplementFrontend).map ctxToJson) :=
  ⟨lookupFile_gen_implement .backend fs, lookupFile_gen_implement .test fs,
    lookupFile_gen_implement .frontend fs,
    lookupFile_gen_implement .fullstack fs⟩

theorem statusOfStr_toStr (s : TaskStatus) :
    statusOfStr (statusToStr s) = some s := by
  cases s <;> rfl

theorem devTypeOfStr_toStr (d : DevType) :
    devTypeOfStr (devTypeToStr d) = some d := by
  cases d <;> rfl

theorem getNullableStr_of_lookup {fs : List (String × Json)} {k : String}
    {o : Option String} (h : lookupField fs k = some (optStrJson o)) :
    getNullableStr fs k = some o := by
  cases o <;> simp [getNullableStr, h, optStrJson]

theorem getStatus_of_lookup {fs : List (String × Json)} {k : String}
    {s : TaskStatus} (h : lookupField fs k = some (.str (statusToStr s))) :
    getStatus fs k = some s := by
  simp [getStatus, getStr, h, statusOfStr_toStr]

theorem getDevTypeOpt_of_lookup {fs : List (String × Json)} {k : String}
    {o : Option DevType}
    (h : lookupField fs k = some (optStrJson (o.map devTypeToStr))) :
    getDevTypeOpt fs k = some o := by
  cases o with
  | none => simp [getDevTypeOpt, optStrJson] at h ⊢; simp [h]
  | some d =>
    simp only [Option.map_some, optStrJson] at h
    simp [getDevTypeOpt, h, devTypeOfStr_toStr]

theorem getStrList_of_lookup {fs : List (String × Json)} {k : String}
    {l : List String} (h : lookupField fs k = some (.arr (l.map .str))) :
    getStrList fs k = some l := by
  simp only [getStrList, h]
  have h1 : (l.map Json.str).map strOfJson = l.map some := by
    rw [List.map_map]
    rfl
  rw [h1]
  have h2 : (l.map some).all Option.isSome = true := by
    simp [List.all_eq_true]
  rw [if_pos h2]
  congr 1
  induction l with
  | nil => rfl
  | cons x xs ih => simp [List.filterMap_cons, ih]

/-- The task-record round trip at the JSON level: serializing a
schema-valid record and parsing it back restores the record exactly. -/
theorem taskOfJson_taskToJson (t : Task) :
    taskOfJson (taskToJson t) = some t := by
  have g1 : getStr (taskFields t) "id" = some t.id := rfl
  have g2 : getStr (taskFields t) "name" = some t.name := rfl
  have g3 : getStr (taskFields t) "title" = some t.title := rfl
  have g4 : getStr (taskFields t) "description" = some t.description := rfl
  have g5 : getStatus (taskFields t) "status" = some t.status :=
    getStatus_of_lookup rfl
  have g6 : getDevTypeOpt (taskFields t) "dev_type" = some t.dev_type :=
    getDevTypeOpt_of_lookup rfl
  have g7 : getNullableStr (taskFields t) "scope" = some t.scope :=
    getNullableStr_of_lookup rfl
  have g8 : getStr (taskFields t) "priority" = some t.priority := rfl
  have g9 : getStr (taskFields t) "creator" = some t.creator := rfl
  have g10 : getStr (taskFields t) "assignee" = some t.assignee := rfl
  have g11 : getStr (taskFields t) "createdAt" = some t.createdAt := rfl
  have g12 : getNullableStr (taskFields t) "completedAt" = some t.completedAt :=
    getNullableStr_of_lookup rfl
  have g13 : getNullableStr (taskFields t) "branch" = some t.branch :=
    getNullableStr_of_lookup rfl
  have g14 : getNullableStr (taskFields t) "base_branch" = some t.base_branch :=
    getNullableStr_of_lookup rfl
  have g15 : getNullableStr (taskFields t) "worktree_path" =
      some t.worktree_path := getNullableStr_of_lookup rfl
  have g16 : getInt (taskFields t) "current_phase" = some t.current_phase := rfl
  have g17 : getStrList (taskFields t) "next_action" = some t.next_action :=
    getStrList_of_lookup rfl
  have g18 : getNullableStr (taskFields t) "commit" = some t.commit :=
    getNullableStr_of_lookup rfl
  have g19 : getNullableStr (taskFields t) "pr_url" = some t.pr_url :=
    getNullableStr_of_lookup rfl
  have g20 : getStrList (taskFields t) "subtasks" = some t.subtasks :=
    getStrList_of_lookup rfl
  have g21 : getStrList (taskFields t) "relatedFiles" = some t.relatedFiles :=
    getStrList_of_lookup rfl
  have g22 : getStr (taskFields t) "notes" = some t.notes := rfl
  simp only [taskToJson, taskOfJson, g1, g2, g3, g4, g5, g6, g7, g8, g9, g10,
    g11, g12, g13, g14, g15, g16, g17, g18, g19, g20, g21, g22]

theorem removeFirst_append_of_prefix {pat : List Char} (h : pat ≠ [])
    (rest : List Char) : removeFirst pat (pat ++ rest) = rest := by
  cases pat with
  | nil => contradiction
  | cons p ps =>
    rw [List.cons_append]
    simp only [removeFirst]
    have hpre : (p :: ps).isPrefixOf (p :: (ps ++ rest)) = true := by
      rw [List.isPrefixOf_iff_prefix]
      exact ⟨rest, by simp⟩
    rw [if_pos hpre]
    show (p :: (ps ++ rest)).drop (p :: ps).length = rest
    rw [List.length_cons, List.drop_succ_cons, List.drop_left]

theorem parseWorktreeLine_isMain (w : PartialWorktree) (line : List Char) :
    (parseWorktreeLine w line).isMain = w.isMain := by
  simp only [parseWorktreeLine]
  split_ifs <;> rfl

theorem parseWorktreeEntry_isMain (lines : List (List Char)) :
    (parseWorktreeEntry lines).isMain = false := by
  unfold parseWorktreeEntry
  suffices h : ∀ w : PartialWorktree,
      (lines.foldl parseWorktreeLine w).isMain = w.isMain by
    exact h {}
  induction lines with
  | nil => intro w; rfl
  | cons l ls ih =>
    intro w
    rw [List.foldl_cons, ih, parseWorktreeLine_isMain]

theorem foldl_pushWorktree_inv (entries : List (List Char)) :
    ∀ acc : List Worktree,
      (∀ x ∈ acc, x.isBare = false ∧ x.isMain = false) →
      ∀ x ∈ entries.foldl pushWorktree acc,
        x.isBare = false ∧ x.isMain = false := by
  induction entries with
  | nil => intro acc hacc x hx; exact hacc x hx
  | cons e es ih =>
    intro acc hacc x hx
    rw [List.foldl_cons] at hx
    refine ih _ ?_ x hx
    intro y hy
    unfold pushWorktree at hy
    dsimp only at hy
    split at hy
    · rename_i p hp
      split at hy
      · rename_i hcond
        rcases List.mem_append.mp hy with h | h
        · exact hacc y h
        · simp only [List.mem_singleton] at h
          subst h
          refine ⟨hcond.2, ?_⟩
          simp only
          exact parseWorktreeEntry_isMain _
      · exact hacc y hy
    · exact hacc y hy

/-- C5: worktree porcelain parsing. Only non-bare entries are returned;
the first returned entry and only it has `isMain = true`; a line with
the `detached` marker sets `branch` to null; a `branch refs/heads/<name>`
line is stripped to `<name>`; and on a concrete output describing three
non-bare worktrees (one detached, two with branches) the first parsed
entry has `isMain = true` and the other two have `isMain = false`. -/
theorem C5_parseWorktreeOutput (output : String) (name : String)
    (w : PartialWorktree) :
    (∀ x ∈ parseWorktreeOutput output, x.isBare = false) ∧
    (∀ x xs, parseWorktreeOutput output = x :: xs →
      x.isMain = true ∧ ∀ v ∈ xs, v.isMain = false) ∧
    (parseWorktreeLine w ("branch refs/heads/".data ++ name.data) =
      { w with branch := some (some name) }) ∧
    (parseWorktreeLine w "detached".data = { w with branch := some none }) ∧
    (parseWorktreeOutput
        ("worktree /repo\nHEAD aaa\nbranch refs/heads/main\n\n" ++
         "worktree /repo/wt1\nHEAD bbb\ndetached\n\n" ++
         "worktree /repo/wt2\nHEAD ccc\nbranch refs/heads/feat") =
      [{ path := "/repo", head := some "aaa", branch := some "main",
         isMain := true, isBare := false },
       { path := "/repo/wt1", head := some "bbb", branch := none,
         isMain := false, isBare := false },
       { path := "/repo/wt2", head := some "ccc", branch := some "feat",
         isMain := false, isBare := false }]) := by
  have hinv := foldl_pushWorktree_inv
    ((splitNlNl output.data).filter (fun s => s ≠ [])) []
    (by intro x hx; cases hx)
  refine ⟨?_, ?_, ?_, ?_, ?_⟩
  · intro x hx
    unfold parseWorktreeOutput at hx
    dsimp only at hx
    split at hx
    · cases hx
    · rename_i v rest hws
      rcases List.mem_cons.mp hx with h | h
      · subst h
        simp only
        exact (hinv v (hws ▸ List.mem_cons_self v rest)).1
      · exact (hinv x (hws ▸ List.mem_cons_of_mem v h)).1
  · intro x xs hx
    unfold parseWorktreeOutput at hx
    dsimp only at hx
    split at hx
    · cases hx
    · rename_i v rest hws
      simp only [List.cons.injEq] at hx
      obtain ⟨hx1, hx2⟩ := hx
      constructor
      · rw [← hx1]
      · intro u hu
        rw [← hx2] at hu
        exact (hinv u (hws ▸ List.mem_cons_of_mem v hu)).2
  · have h1 : "worktree ".data.isPrefixOf
        ("branch refs/heads/".data ++ name.data) = false := rfl
    have h2 : "HEAD ".data.isPrefixOf
        ("branch refs/heads/".data ++ name.data) = false := rfl
    have h3 : "branch ".data.isPrefixOf
        ("branch refs/heads/".data ++ name.data) = true := rfl
    have h4 : ("branch refs/heads/".data ++ name.data).drop 7 =
        "refs/heads/".data ++ name.data := rfl
    have h5 : removeFirst "refs/heads/".data ("refs/heads/".data ++ name.data)
        = name.data := removeFirst_append_of_prefix (by decide) _
    simp only [parseWorktreeLine, h1, h2, h3, h4, h5]
    rfl
  · rfl
  · rfl

/-! ### Task store lemmas -/

theorem findTaskInDirs_mem {q : String} :
    ∀ {dirs : List TaskDirEnt} {t : Task} {d : String},
      findTaskInDirs q dirs = some (t, d) →
      ∃ e, e ∈ dirs ∧ e.name = d ∧ readTaskEnt e = some t := by
  intro dirs
  induction dirs with
  | nil => intro t d h; simp [findTaskInDirs] at h
  | cons e rest ih =>
    intro t d h
    unfold findTaskInDirs at h
    split at h
    · obtain ⟨f, hf, hfe⟩ := ih h
      exact ⟨f, List.mem_cons_of_mem e hf, hfe⟩
    · split at h
      · obtain ⟨f, hf, hfe⟩ := ih h
        exact ⟨f, List.mem_cons_of_mem e hf, hfe⟩
      · rename_i t' hread
        split at h
        · simp only [Option.some.injEq, Prod.mk.injEq] at h
          exact ⟨e, List.mem_cons_self e rest, h.2, h.1 ▸ hread⟩
        · obtain ⟨f, hf, hfe⟩ := ih h
          exact ⟨f, List.mem_cons_of_mem e hf, hfe⟩

theorem findTask_mem {q : String} {st : TaskStore} {t : Task} {d : String}
    (h : findTask q st = some (t, d)) :
    ∃ e, e ∈ st.dirs ∧ e.name = d ∧ readTaskEnt e = some t := by
  unfold findTask at h
  split at h
  · exact findTaskInDirs_mem h
  · simp at h

theorem lookupDir_of_mem_nodup {e : TaskDirEnt} :
    ∀ {dirs : List TaskDirEnt}, e ∈ dirs →
      (dirs.map TaskDirEnt.name).Nodup → lookupDir e.name dirs = some e := by
  intro dirs
  induction dirs with
  | nil => intro he; cases he
  | cons f rest ih =>
    intro he hn
    rw [List.map_cons, List.nodup_cons] at hn
    rcases List.mem_cons.mp he with h | h
    · subst h
      simp [lookupDir]
    · have hne : f.name ≠ e.name := by
        intro hc
        exact hn.1 (hc ▸ List.mem_map_of_mem TaskDirEnt.name h)
      rw [lookupDir, if_neg hne]
      exact ih h hn.2

theorem lookupDir_map_namePres {f : TaskDirEnt → TaskDirEnt}
    (hf : ∀ e, (f e).name = e.name) (n : String) :
    ∀ dirs : List TaskDirEnt,
      lookupDir n (dirs.map f) = (lookupDir n dirs).map f := by
  intro dirs
  induction dirs with
  | nil => rfl
  | cons e rest ih =>
    rw [List.map_cons, lookupDir, lookupDir, hf e]
    by_cases h : e.name = n
    · rw [if_pos h, if_pos h]; rfl
    · rw [if_neg h, if_neg h]; exact ih

theorem lookupDir_filter_ne (n : String) :
    ∀ dirs : List TaskDirEnt,
      lookupDir n (dirs.filter (fun e => e.name != n)) = none := by
  intro dirs
  induction dirs with
  | nil => rfl
  | cons e rest ih =>
    rw [List.filter_cons]
    by_cases h : e.name = n
    · rw [if_neg (by simp [h])]; exact ih
    · rw [if_pos (by simp [h]), lookupDir, if_neg h]; exact ih

theorem filter_name_eq_of_nodup {e : TaskDirEnt} :
    ∀ {dirs : List TaskDirEnt}, e ∈ dirs →
      (dirs.map TaskDirEnt.name).Nodup →
      dirs.filter (fun x => x.name == e.name) = [e] := by
  intro dirs
  induction dirs with
  | nil => intro he; cases he
  | cons f rest ih =>
    intro he hn
    rw [List.map_cons, List.nodup_cons] at hn
    rcases List.mem_cons.mp he with h | h
    · rw [h]
      rw [List.filter_cons, if_pos (by simp)]
      have hrest : rest.filter (fun x => x.name == f.name) = [] := by
        rw [List.filter_eq_nil]
        intro a ha
        simp only [beq_iff_eq]
        intro hc
        exact hn.1 (hc ▸ List.mem_map_of_mem TaskDirEnt.name ha)
      rw [hrest]
    · have hne : f.name ≠ e.name := by
        intro hc
        exact hn.1 (hc ▸ List.mem_map_of_mem TaskDirEnt.name h)
      rw [List.filter_cons, if_neg (by simp [hne])]
      exact ih h hn.2

theorem listTasks_dirName_mem {opts : ListTasksOptions} {st : TaskStore}
    {r : TaskListItem} (h : r ∈ listTasks opts st) :
    ∃ e ∈ st.dirs, r.dirName = e.name := by
  unfold listTasks at h
  split at h
  · obtain ⟨e, he, hfe⟩ := List.mem_filterMap.mp h
    refine ⟨e, he, ?_⟩
    split at hfe
    · cases hfe
    · split at hfe
      · cases hfe
      · split at hfe
        · cases hfe
        · split at hfe
          · cases hfe
          · simp only [Option.some.injEq] at hfe
            rw [← hfe]
  · cases h

theorem lookupDir_name {n : String} :
    ∀ {dirs : List TaskDirEnt} {e : TaskDirEnt},
      lookupDir n dirs = some e → e.name = n := by
  intro dirs
  induction dirs with
  | nil => intro e h; simp [lookupDir] at h
  | cons f rest ih =>
    intro e h
    rw [lookupDir] at h
    split at h
    · rename_i hf
      cases h
      exact hf
    · exact ih h

theorem applyPatch_archive (t : Task) (today : String) :
    applyPatch t { status := some .completed,
                   completedAt := some (some today) } =
      { t with status := .completed, completedAt := some today } := rfl

theorem readTask_writeTask (dirName : String) (t : Task) (st : TaskStore)
    (h : (lookupDir dirName st.dirs).isSome = true) :
    readTask dirName (writeTask dirName t st) = some t := by
  unfold readTask writeTask
  rw [lookupDir_map_namePres (f := fun e =>
    if e.name = dirName then { e with taskJson := some (taskToJson t) } else e)
    (by intro e; by_cases he : e.name = dirName <;> simp [he]) dirName]
  cases hl : lookupDir dirName st.dirs with
  | none => rw [hl] at h; simp at h
  | some e =>
    have hname : e.name = dirName := lookupDir_name hl
    simp [hname, readTaskEnt, taskOfJson_taskToJson]

/-- C8: task record round trip. For every schema-valid task record `t`
and every existing task directory, `writeTask` followed by `readTask`
returns a record deep-equal to `t`. -/
theorem C8_task_round_trip (dirName : String) (t : Task) (st : TaskStore)
    (h : (lookupDir dirName st.dirs).isSome = true) :
    readTask dirName (writeTask dirName t st) = some t :=
  readTask_writeTask dirName t st h

/-- C2: `archiveTask` is a pure relocation. For every active task found
by name or slug, the archived record equals the pre-archive record
except that `status = completed` and `completedAt` is set; the original
directory (with its other files) is relocated into the year-month
archive bucket and no longer exists under the active tasks directory; a
current-task pointer referencing the archived directory is cleared; and
a subsequent `listTasks` never returns the archived task. -/
theorem C2_archiveTask_pure_relocation
    (q today yearMonth : String) (st : TaskStore) (t : Task)
    (dirName : String)
    (hfind : findTask q st = some (t, dirName))
    (hnodup : (st.dirs.map TaskDirEnt.name).Nodup) :
    (archiveTask q today yearMonth st).1 =
      some (PATHS_TASKS ++ "/" ++ DIR_ARCHIVE ++ "/" ++ yearMonth ++ "/" ++
        dirName) ∧
    lookupDir dirName (archiveTask q today yearMonth st).2.dirs = none ∧
    (∃ e, e ∈ st.dirs ∧ e.name = dirName ∧ readTaskEnt e = some t ∧
      (yearMonth, { e with taskJson := some (taskToJson
        { t with status := .completed, completedAt := some today }) }) ∈
        (archiveTask q today yearMonth st).2.archive ∧
      readTaskEnt { e with taskJson := some (taskToJson
          { t with status := .completed, completedAt := some today }) } =
        some { t with status := .completed, completedAt := some today }) ∧
    (∀ p, st.currentTask = some p → strIncludes p dirName = true →
      (archiveTask q today yearMonth st).2.currentTask = none) ∧
    (∀ opts r, r ∈ listTasks opts (archiveTask q today yearMonth st).2 →
      r.dirName ≠ dirName) := by
  obtain ⟨e, he, hename, hread⟩ := findTask_mem hfind
  have hlook : lookupDir dirName st.dirs = some e := by
    rw [← hename]; exact lookupDir_of_mem_nodup he hnodup
  have hreadT : readTask dirName st = some t := by
    unfold readTask; rw [hlook]; exact hread
  have hupd : updateTask dirName
      { status := some .completed, completedAt := some (some today) } st =
      (some { t with status := .completed, completedAt := some today },
        writeTask dirName
          { t with status := .completed, completedAt := some today } st) := by
    unfold updateTask
    rw [hreadT]
    dsimp only
    rw [applyPatch_archive]
  unfold archiveTask
  rw [hfind]
  dsimp only
  rw [hupd]
  dsimp only
  set t' : Task :=
    { t with status := TaskStatus.completed, completedAt := some today }
    with ht'
  set st1 := writeTask dirName t' st with hst1
  have hcur1 : st1.currentTask = st.currentTask := rfl
  have hdirs1 : st1.dirs = st.dirs.map (fun x =>
    if x.name = dirName then { x with taskJson := some (taskToJson t') }
    else x) := rfl
  have harch1 : st1.archive = st.archive := rfl
  have hmoved : st1.dirs.filter (fun x => x.name == dirName) =
      [{ e with taskJson := some (taskToJson t') }] := by
    rw [hdirs1, List.filter_map]
    have hcongr : st.dirs.filter ((fun x => x.name == dirName) ∘ (fun x =>
        if x.name = dirName then { x with taskJson := some (taskToJson t') }
        else x)) = st.dirs.filter (fun x => x.name == e.name) := by
      apply List.filter_congr
      intro x _
      simp only [Function.comp]
      by_cases hx : x.name = dirName <;> simp [hx, hename]
    rw [hcongr, filter_name_eq_of_nodup he hnodup]
    simp [hename]
  have hgone : lookupDir dirName
      (st1.dirs.filter (fun x => x.name != dirName)) = none :=
    lookupDir_filter_ne dirName st1.dirs
  have hreadArch : readTaskEnt
      { e with taskJson := some (taskToJson t') } = some t' := by
    simp [readTaskEnt, taskOfJson_taskToJson]
  have hlast : ∀ (opts : ListTasksOptions) (r : TaskListItem)
      (st3 : TaskStore), st3.dirs = st1.dirs.filter (fun x => x.name != dirName) →
      r ∈ listTasks opts st3 → r.dirName ≠ dirName := by
    intro opts r st3 hd hr
    obtain ⟨e2, he2, hre2⟩ := listTasks_dirName_mem hr
    rw [hd] at he2
    have := (List.mem_filter.mp he2).2
    simp only [bne_iff_ne, ne_eq] at this
    rw [hre2]
    exact this
  rcases hcur : st.currentTask with _ | p
  · rw [hcur1, hcur]
    dsimp only
    refine ⟨rfl, hgone, ⟨e, he, hename, hread, ?_, hreadArch⟩, ?_, ?_⟩
    · rw [hmoved, harch1]
      simp
    · intro p hp
      simp at hp
    · intro opts r hr
      exact hlast opts r _ rfl hr
  · rw [hcur1, hcur]
    dsimp only
    by_cases hinc : strIncludes p dirName = true
    · rw [if_pos hinc]
      refine ⟨rfl, hgone, ⟨e, he, hename, hread, ?_, hreadArch⟩, ?_, ?_⟩
      · rw [hmoved, harch1]
        simp
      · intro p2 hp2 _
        rfl
      · intro opts r hr
        exact hlast opts r _ rfl hr
    · rw [if_neg hinc]
      refine ⟨rfl, hgone, ⟨e, he, hename, hread, ?_, hreadArch⟩, ?_, ?_⟩
      · rw [hmoved, harch1]
        simp
      · intro p2 hp2 hp2inc
        injection hp2 with hpp
        subst hpp
        exact absurd hp2inc hinc
      · intro opts r hr
        exact hlast opts r _ rfl hr

theorem lookupDir_append (n : String) :
    ∀ l1 l2 : List TaskDirEnt,
      lookupDir n (l1 ++ l2) =
        match lookupDir n l1 with
        | some e => some e
        | none => lookupDir n l2 := by
  intro l1 l2
  induction l1 with
  | nil => rfl
  | cons e rest ih =>
    rw [List.cons_append, lookupDir, lookupDir]
    by_cases h : e.name = n
    · rw [if_pos h, if_pos h]
    · rw [if_neg h, if_neg h]
      exact ih

/-- C6: `createTask` postcondition. For every title with a derivable
(non-empty) slug and a resolvable assignee, `createTask` creates the
directory `<datePrefix>-<slug>` under the tasks directory and writes a
task record that parses back against the schema with
`status = planning` and `current_phase = 0`. -/
theorem C6_createTask_postcondition
    (slugify : String → String) (datePrefix today title slug : String)
    (assignee : String) (opts : CreateTaskOptions) (st : TaskStore)
    (hslugdef : resolveSlug slugify title opts = slug)
    (hslug : slug ≠ "")
    (hassignee : resolveAssignee opts st.developer = some assignee)
    (hfresh : lookupDir (datePrefix ++ "-" ++ slug) st.dirs = none) :
    ∃ st', createTask slugify datePrefix today title opts st =
        .ok (PATHS_TASKS ++ "/" ++ (datePrefix ++ "-" ++ slug), st') ∧
      lookupDir (datePrefix ++ "-" ++ slug) st'.dirs ≠ none ∧
      readTask (datePrefix ++ "-" ++ slug) st' =
        some (newTaskRecord slug title (st.developer.getD assignee) assignee
          today opts) ∧
      (newTaskRecord slug title (st.developer.getD assignee) assignee today
        opts).status = .planning ∧
      (newTaskRecord slug title (st.developer.getD assignee) assignee today
        opts).current_phase = 0 := by
  have hmem : (lookupDir (datePrefix ++ "-" ++ slug)
      (st.dirs ++ [TaskDirEnt.mk (datePrefix ++ "-" ++ slug) none []])).isSome
      = true := by
    rw [lookupDir_append, hfresh]
    simp [lookupDir]
  have hr := readTask_writeTask (datePrefix ++ "-" ++ slug)
    (newTaskRecord slug title (st.developer.getD assignee) assignee today opts)
    (TaskStore.mk st.developer true
      (st.dirs ++ [TaskDirEnt.mk (datePrefix ++ "-" ++ slug) none []])
      st.archive st.currentTask) hmem
  refine ⟨_, ?_, ?_, hr, rfl, rfl⟩
  · unfold createTask
    rw [hassignee]
    dsimp only
    rw [hslugdef, if_neg hslug, hfresh]
    rw [if_neg (by simp)]
  · intro hnone
    unfold readTask at hr
    rw [hnone] at hr
    cases hr

/-- C7 counterexample: at a concrete collision, `createTask` does not
leave the existing `task.json` unchanged — it overwrites it with the
fresh record, refuting the claim as stated. -/
theorem C7_counterexample :
    readTask "02-01-fix" sampleCollisionStore = some sampleOldTask ∧
    (createTask (fun _ => "fix") "02-01" "2026-02-05" "Fix bug" {}
        sampleCollisionStore).toOption.map
        (fun r => readTask "02-01-fix" r.2) =
      some (some (newTaskRecord "fix" "Fix bug" "alice" "alice" "2026-02-05"
        {})) ∧
    newTaskRecord "fix" "Fix bug" "alice" "alice" "2026-02-05" {} ≠
      sampleOldTask := by
  refine ⟨by rfl, by rfl, by decide⟩

/-- C7 (amended): on a directory-name collision `createTask` reports
the collision (a console warning) and does not re-create the directory:
the set of active directory names is unchanged and the existing
directory's other files survive. However, it still writes the fresh
record into the existing directory, overwriting the previous
`task.json`. -/
theorem C7_createTask_collision
    (slugify : String → String)
    (datePrefix today title slug assignee : String)
    (opts : CreateTaskOptions) (st : TaskStore) (e : TaskDirEnt)
    (hslugdef : resolveSlug slugify title opts = slug)
    (hslug : slug ≠ "")
    (hassignee : resolveAssignee opts st.developer = some assignee)
    (hcol : lookupDir (datePrefix ++ "-" ++ slug) st.dirs = some e) :
    ∃ st', createTask slugify datePrefix today title opts st =
        .ok (PATHS_TASKS ++ "/" ++ (datePrefix ++ "-" ++ slug), st') ∧
      st'.dirs.map TaskDirEnt.name = st.dirs.map TaskDirEnt.name ∧
      lookupDir (datePrefix ++ "-" ++ slug) st'.dirs =
        some (TaskDirEnt.mk e.name
          (some (taskToJson (newTaskRecord slug title
            (st.developer.getD assignee) assignee today opts)))
          e.others) ∧
      readTask (datePrefix ++ "-" ++ slug) st' =
        some (newTaskRecord slug title (st.developer.getD assignee) assignee
          today opts) := by
  have hname : e.name = datePrefix ++ "-" ++ slug := lookupDir_name hcol
  have hmem : (lookupDir (datePrefix ++ "-" ++ slug)
      (TaskStore.mk st.developer true st.dirs st.archive
        st.currentTask).dirs).isSome = true := by
    show (lookupDir (datePrefix ++ "-" ++ slug) st.dirs).isSome = true
    rw [hcol]
    rfl
  have hr := readTask_writeTask (datePrefix ++ "-" ++ slug)
    (newTaskRecord slug title (st.developer.getD assignee) assignee today opts)
    (TaskStore.mk st.developer true st.dirs st.archive st.currentTask) hmem
  refine ⟨_, ?_, ?_, ?_, hr⟩
  · unfold createTask
    rw [hassignee]
    dsimp only
    rw [hslugdef, if_neg hslug, hcol]
    rw [if_pos (by rfl)]
  · show (st.dirs.map _).map TaskDirEnt.name = st.dirs.map TaskDirEnt.name
    rw [List.map_map]
    apply List.map_congr_left
    intro x _
    simp only [Function.comp]
    by_cases hx : x.name = datePrefix ++ "-" ++ slug <;> simp [hx]
  · show lookupDir (datePrefix ++ "-" ++ slug) (st.dirs.map _) = _
    rw [lookupDir_map_namePres (f := fun x =>
      if x.name = datePrefix ++ "-" ++ slug then
        { x with taskJson := some (taskToJson (newTaskRecord slug title
          (st.developer.getD assignee) assignee today opts)) }
      else x)
      (by intro x; by_cases hx : x.name = datePrefix ++ "-" ++ slug <;>
        simp [hx]) (datePrefix ++ "-" ++ slug) st.dirs]
    rw [hcol]
    simp [hname]

/-- Witness for C2 at a concrete store: the archive path is returned and
the directory leaves the active tasks directory. -/
theorem C2_archiveTask_pure_relocation_witness :
    (findTask "fix" sampleCollisionStore = some (sampleOldTask, "02-01-fix") ∧
      (sampleCollisionStore.dirs.map TaskDirEnt.name).Nodup) ∧
    (archiveTask "fix" "2026-02-10" "2026-02" sampleCollisionStore).1 =
      some (PATHS_TASKS ++ "/" ++ DIR_ARCHIVE ++ "/" ++ "2026-02" ++ "/" ++
        "02-01-fix") ∧
    lookupDir "02-01-fix"
      (archiveTask "fix" "2026-02-10" "2026-02" sampleCollisionStore).2.dirs =
      none :=
  ⟨⟨rfl, by decide⟩,
    (C2_archiveTask_pure_relocation "fix" "2026-02-10" "2026-02"
      sampleCollisionStore sampleOldTask "02-01-fix" rfl (by decide)).1,
    (C2_archiveTask_pure_relocation "fix" "2026-02-10" "2026-02"
      sampleCollisionStore sampleOldTask "02-01-fix" rfl (by decide)).2.1⟩

/-- Witness for C6 at a concrete title, slug function and store. -/
theorem C6_createTask_postcondition_witness :
    (resolveSlug (fun _ => "fix-login") "Fix login" {} = "fix-login" ∧
      ("fix-login" : String) ≠ "" ∧
      resolveAssignee {} (TaskStore.mk (some "alice") false [] [] none).developer
        = some "alice" ∧
      lookupDir ("02-05" ++ "-" ++ "fix-login")
        (TaskStore.mk (some "alice") false [] [] none).dirs = none) ∧
    (∃ st', createTask (fun _ => "fix-login") "02-05" "2026-02-05" "Fix login"
        {} (TaskStore.mk (some "alice") false [] [] none) =
        .ok (PATHS_TASKS ++ "/" ++ ("02-05" ++ "-" ++ "fix-login"), st') ∧
      lookupDir ("02-05" ++ "-" ++ "fix-login") st'.dirs ≠ none ∧
      readTask ("02-05" ++ "-" ++ "fix-login") st' =
        some (newTaskRecord "fix-login" "Fix login"
          ((TaskStore.mk (some "alice") false [] [] none).developer.getD
            "alice") "alice" "2026-02-05" {}) ∧
      (newTaskRecord "fix-login" "Fix login"
        ((TaskStore.mk (some "alice") false [] [] none).developer.getD
          "alice") "alice" "2026-02-05" {}).status = .planning ∧
      (newTaskRecord "fix-login" "Fix login"
        ((TaskStore.mk (some "alice") false [] [] none).developer.getD
          "alice") "alice" "2026-02-05" {}).current_phase = 0) :=
  ⟨⟨rfl, by decide, rfl, rfl⟩,
    C6_createTask_postcondition (fun _ => "fix-login") "02-05" "2026-02-05"
      "Fix login" "fix-login" "alice" {}
      (TaskStore.mk (some "alice") false [] [] none) rfl (by decide) rfl rfl⟩

/-- Witness for the amended C7 at the concrete collision store. -/
theorem C7_createTask_collision_witness :
    (resolveSlug (fun _ => "fix") "Fix bug" {} = "fix" ∧
      ("fix" : String) ≠ "" ∧
      resolveAssignee {} sampleCollisionStore.developer = some "alice" ∧
      lookupDir ("02-01" ++ "-" ++ "fix") sampleCollisionStore.dirs =
        some (TaskDirEnt.mk "02-01-fix" (some (taskToJson sampleOldTask))
          ["prd.md"])) ∧
    (∃ st', createTask (fun _ => "fix") "02-01" "2026-02-05" "Fix bug" {}
        sampleCollisionStore =
        .ok (PATHS_TASKS ++ "/" ++ ("02-01" ++ "-" ++ "fix"), st') ∧
      st'.dirs.map TaskDirEnt.name =
        sampleCollisionStore.dirs.map TaskDirEnt.name ∧
      lookupDir ("02-01" ++ "-" ++ "fix") st'.dirs =
        some (TaskDirEnt.mk
          (TaskDirEnt.mk "02-01-fix" (some (taskToJson sampleOldTask))
            ["prd.md"]).name
          (some (taskToJson (newTaskRecord "fix" "Fix bug"
            (sampleCollisionStore.developer.getD "alice") "alice"
            "2026-02-05" {})))
          (TaskDirEnt.mk "02-01-fix" (some (taskToJson sampleOldTask))
            ["prd.md"]).others) ∧
      readTask ("02-01" ++ "-" ++ "fix") st' =
        some (newTaskRecord "fix" "Fix bug"
          (sampleCollisionStore.developer.getD "alice") "alice" "2026-02-05"
          {})) :=
  ⟨⟨rfl, by decide, rfl, rfl⟩,
    C7_createTask_collision (fun _ => "fix") "02-01" "2026-02-05" "Fix bug"
      "fix" "alice" {} sampleCollisionStore
      (TaskDirEnt.mk "02-01-fix" (some (taskToJson sampleOldTask)) ["prd.md"])
      rfl (by decide) rfl rfl⟩

/-- Witness for C8 at a concrete record and store. -/
theorem C8_task_round_trip_witness :
    (lookupDir "02-01-fix" sampleCollisionStore.dirs).isSome = true ∧
    readTask "02-01-fix"
      (writeTask "02-01-fix" sampleOldTask sampleCollisionStore) =
      some sampleOldTask :=
  ⟨rfl, C8_task_round_trip "02-01-fix" sampleOldTask sampleCollisionStore rfl⟩

/-- C9 counterexample: when the developer identity file is missing,
`rotateJournalIfNeeded` and `addSession` do not return null or an empty
result — both throw `Developer not initialized`, refuting the claim as
stated. -/
theorem C9_counterexample :
    rotateJournalIfNeeded "2026-01-01" (JournalState.mk none []) =
      .error "Developer not initialized" ∧
    addSession (Session.mk "t" none none none none) "2026-01-01"
      "2026-01-01T00:00:00.000Z" (JournalState.mk none []) =
      .error "Developer not initialized" :=
  ⟨rfl, rfl⟩

/-- C9 (amended): the read-side operations do return null or an empty
result on a missing target — `readTask` on an absent directory,
`findTask` and `listTasks` when the tasks directory is missing,
`getActiveJournal` and `getJournalFiles` when no journal exists — and a
missing journal does not make `rotateJournalIfNeeded` throw (it creates
file 1); but `rotateJournalIfNeeded` and `addSession` throw
`Developer not initialized` when the developer identity is missing. -/
theorem C9_notfound_handling
    (q dirName today nowIso dev : String) (st : TaskStore)
    (opts : ListTasksOptions) (js : JournalState) (s : Session)
    (hdir : lookupDir dirName st.dirs = none)
    (hnodirs : st.tasksDirExists = false)
    (hnofiles : js.files = []) :
    readTask dirName st = none ∧
    findTask q st = none ∧
    listTasks opts st = [] ∧
    getActiveJournal (JournalState.mk none js.files) = none ∧
    getJournalFiles js = [] ∧
    rotateJournalIfNeeded today (JournalState.mk (some dev) js.files) =
      .ok (createJournalFile dev 1 today
        (JournalState.mk (some dev) js.files)) ∧
    rotateJournalIfNeeded today (JournalState.mk none js.files) =
      .error "Developer not initialized" ∧
    addSession s today nowIso (JournalState.mk none js.files) =
      .error "Developer not initialized" := by
  have hgj : getJournalFiles js = [] := by
    unfold getJournalFiles
    rw [hnofiles]
    rfl
  have hgj2 : getJournalFiles (JournalState.mk (some dev) js.files) = [] := by
    unfold getJournalFiles
    show List.insertionSort fileLE js.files = []
    rw [hnofiles]
    rfl
  have hactive : getActiveJournal (JournalState.mk (some dev) js.files) =
      none := by
    unfold getActiveJournal
    rw [hgj2]
    rfl
  refine ⟨?_, ?_, ?_, rfl, hgj, ?_, rfl, rfl⟩
  · unfold readTask
    rw [hdir]
  · unfold findTask
    rw [hnodirs]
    rfl
  · unfold listTasks
    rw [hnodirs]
    rfl
  · unfold rotateJournalIfNeeded
    rw [hactive]

/-- Witness for the amended C9 at concrete empty stores. -/
theorem C9_notfound_handling_witness :
    (lookupDir "02-01-x" (TaskStore.mk none false [] [] none).dirs = none ∧
      (TaskStore.mk none false [] [] none).tasksDirExists = false ∧
      (JournalState.mk none []).files = ([] : List (Nat × List Char))) ∧
    (readTask "02-01-x" (TaskStore.mk none false [] [] none) = none ∧
      findTask "x" (TaskStore.mk none false [] [] none) = none ∧
      listTasks {} (TaskStore.mk none false [] [] none) = [] ∧
      getActiveJournal (JournalState.mk none
        (JournalState.mk none []).files) = none ∧
      getJournalFiles (JournalState.mk none []) = [] ∧
      rotateJournalIfNeeded "2026-01-01" (JournalState.mk (some "alice")
        (JournalState.mk none []).files) =
        .ok (createJournalFile "alice" 1 "2026-01-01"
          (JournalState.mk (some "alice") (JournalState.mk none []).files)) ∧
      rotateJournalIfNeeded "2026-01-01" (JournalState.mk none
        (JournalState.mk none []).files) =
        .error "Developer not initialized" ∧
      addSession (Session.mk "t" none none none none) "2026-01-01"
        "2026-01-01T00:00:00.000Z" (JournalState.mk none
          (JournalState.mk none []).files) =
        .error "Developer not initialized") :=
  ⟨⟨rfl, rfl, rfl⟩,
    C9_notfound_handling "x" "02-01-x" "2026-01-01"
      "2026-01-01T00:00:00.000Z" "alice" (TaskStore.mk none false [] [] none)
      {} (JournalState.mk none []) (Session.mk "t" none none none none)
      rfl rfl rfl⟩

theorem lookup_appendJsonLine (name : String) (j : Json) (ctx : CtxFiles) :
    lookupFile name (appendJsonLine name j ctx) =
      some (((lookupFile name ctx).getD []) ++ [j]) := by
  induction ctx with
  | nil => simp [appendJsonLine, lookupFile]
  | cons f rest ih =>
    by_cases h : f.1 = name
    · simp [appendJsonLine, lookupFile, h]
    · simp only [appendJsonLine, lookupFile, if_neg h]
      exact ih

/-- C10 counterexample: the manifest already contains an entry whose
`file` field equals the given path `docs`, yet adding the directory
`docs` appends a second entry (for the normalized path `docs/`) instead
of returning with the manifest unchanged, refuting the claim as
stated. -/
theorem C10_counterexample :
    (readJsonl ((lookupFile "implement.jsonl" sampleCtx).getD [])).any
        (fun e => e.file == "docs") = true ∧
    ((lookupFile "implement.jsonl" sampleCtx).getD []).length = 1 ∧
    (addContext (fun p => if p = "docs" then some PathKind.dir else none)
        "implement.jsonl" "docs" "r2" sampleCtx).toOption.map
        (fun c => ((lookupFile "implement.jsonl" c).getD []).length) =
      some 2 :=
  ⟨rfl, rfl, rfl⟩

/-- C10 (amended): `addContext` throws `Path not found` when the given
path does not exist on disk; otherwise the path is normalized (a
directory gets a trailing slash and type `directory`) and the duplicate
check compares existing `file` fields against the normalized path — not
the given one: when a normalized-path duplicate exists the manifest is
returned unchanged after a warning, and otherwise exactly one entry for
the normalized path is appended to the manifest. -/
theorem C10_addContext_behavior
    (fsKind : String → Option PathKind) (jsonlName filePath reason : String)
    (ctx : CtxFiles) (k : PathKind)
    (hname : strEndsWith jsonlName ".jsonl" = true)
    (hk : fsKind filePath = some k) :
    (∀ q, fsKind q = none →
      addContext fsKind jsonlName q reason ctx =
        .error ("Path not found: " ++ q)) ∧
    (let path' := match k with
       | .dir => if strEndsWith filePath "/" then filePath
                 else filePath ++ "/"
       | .file => filePath
     let entryType : Option String := match k with
       | .dir => some "directory"
       | .file => none
     if (readJsonl ((lookupFile jsonlName ctx).getD [])).any
         (fun e => e.file == path') then
       addContext fsKind jsonlName filePath reason ctx = .ok ctx
     else
       addContext fsKind jsonlName filePath reason ctx =
         .ok (appendJsonLine jsonlName
           (ctxToJson (ContextEntry.mk path' entryType reason)) ctx) ∧
       ∀ c, addContext fsKind jsonlName filePath reason ctx = .ok c →
         lookupFile jsonlName c =
           some (((lookupFile jsonlName ctx).getD []) ++
             [ctxToJson (ContextEntry.mk path' entryType reason)])) := by
  constructor
  · intro q hq
    unfold addContext
    rw [hq]
  · cases k with
    | dir =>
      dsimp only
      unfold addContext
      rw [if_pos hname, hk]
      dsimp only
      by_cases hdup : (readJsonl ((lookupFile jsonlName ctx).getD [])).any
          (fun e => e.file ==
            (if strEndsWith filePath "/" then filePath
             else filePath ++ "/")) = true
      · rw [if_pos hdup, if_pos hdup]
      · rw [if_neg hdup, if_neg hdup]
        refine ⟨rfl, ?_⟩
        intro c hc
        injection hc with hc
        rw [← hc]
        exact lookup_appendJsonLine jsonlName _ ctx
    | file =>
      dsimp only
      unfold addContext
      rw [if_pos hname, hk]
      dsimp only
      by_cases hdup : (readJsonl ((lookupFile jsonlName ctx).getD [])).any
          (fun e => e.file == filePath) = true
      · rw [if_pos hdup, if_pos hdup]
      · rw [if_neg hdup, if_neg hdup]
        refine ⟨rfl, ?_⟩
        intro c hc
        injection hc with hc
        rw [← hc]
        exact lookup_appendJsonLine jsonlName _ ctx

/-- Witness for the amended C10: a missing path throws, and adding a
fresh directory path to an empty manifest appends exactly one
normalized entry. -/
theorem C10_addContext_behavior_witness :
    (strEndsWith "check.jsonl" ".jsonl" = true ∧
      (fun p => if p = "docs" then some PathKind.dir else none) "docs" =
        some PathKind.dir) ∧
    addContext (fun p => if p = "docs" then some PathKind.dir else none)
      "check.jsonl" "missing" "r" [] =
      .error ("Path not found: " ++ "missing") :=
  ⟨⟨rfl, rfl⟩,
    (C10_addContext_behavior
      (fun p => if p = "docs" then some PathKind.dir else none)
      "check.jsonl" "docs" "r" [] PathKind.dir rfl rfl).1 "missing" rfl⟩

end Trellis

